import Mathlib

/-!
# Verification of the zoAnalytics client/relay request pipeline

Shallow embedding of the token-refresh-and-retry request pipeline of the
Zoho Analytics Node.js client (`AnalyticsClient` in the SDK source) and of
the Express relay (`server.js`), together with proofs of the spec's
testable properties.

Conventions of the embedding:
* Upstream HTTP response bodies are modelled semantically: a body either
  parses as the JSON envelope `{data: ...}` (constructor `jsonBody`,
  carrying the `data` payload) or it does not parse as JSON at all
  (constructor `rawBody`). `JSON.parse` throwing inside a response
  callback crashes the handler; this is the `crash` outcome.
* Promise settlement is modelled by the *list* of `resolve`/`reject`
  calls the handler performs, in order; the observable outcome of the
  promise is the first settlement (later calls are no-ops in JS).
* JS field access on possibly-absent fields is `Option`; JS truthiness
  of an optional string field is `jsTruthy`.
-/

/-- JS truthiness of an optional string field: `undefined` and `""` are falsy. -/
def jsTruthy : Option String → Bool
  | none => false
  | some s => s ≠ ""

/-! ## OAuth token exchange

`AnalyticsClient.getOauth` (client SDK) and `refreshZohoToken` (relay
`server.js`) both POST the refresh grant and inspect the parsed JSON
response. The response may carry an `access_token` field and/or an
`error` field; either may be absent. -/

/-- Parsed JSON body of the OAuth token endpoint response: the two fields
the code inspects, each possibly absent. -/
structure OauthResp where
  access_token : Option String
  error : Option String
deriving Repr, DecidableEq

/-- The error object `getOauth` rejects with: `{errorCode: '0', errorMessage: respJSON.error}`. -/
structure OauthErr where
  errorCode : String
  errorMessage : String
deriving Repr, DecidableEq

/-- `getOauth`'s response-end handler: `if(!respJSON.error) resolve(respJSON.access_token)
else reject({errorCode:'0', errorMessage: respJSON.error})`. Note the test is on the
`error` field, not on presence of `access_token`; the resolved value is the
`access_token` field, which may be absent (`none` = JS `undefined`). -/
def getOauthEnd (r : OauthResp) : Except OauthErr (Option String) :=
  if jsTruthy r.error then
    .error { errorCode := "0", errorMessage := r.error.getD "" }
  else
    .ok r.access_token

/-- The relay's `refreshZohoToken` response handling: `if (data.access_token)`
succeed with that token (caching it in `zohoAccessToken`), `else throw new
Error('Failed to refresh Zoho token: ' + (data.error || 'Unknown error'))`. -/
def refreshZohoTokenEnd (r : OauthResp) : Except String String :=
  if jsTruthy r.access_token then
    .ok (r.access_token.getD "")
  else
    .error ("Failed to refresh Zoho token: "
      ++ (if jsTruthy r.error then r.error.getD "" else "Unknown error"))

/-! ## The V2 response-end handler (`sendV2Request`) -/

/-- The `data` field of the upstream envelope. On failure it is an error
object exposing `errorCode`/`errorMessage`; on success it is an opaque
payload (modelled as a string tag). -/
inductive RespData where
  | errInfo (errorCode : String) (errorMessage : String)
  | value (v : String)
deriving Repr, DecidableEq

/-- JS `error.errorCode`: defined only when the rejected payload is an
error object. -/
def RespData.getErrorCode : RespData → Option String
  | .errInfo c _ => some c
  | .value _ => none

/-- An upstream HTTP body: either valid JSON whose envelope has `data` field
`d`, or raw bytes that are not valid JSON (exports may be binary). -/
inductive HttpBody where
  | jsonBody (d : RespData)
  | rawBody (bytes : List Nat)
deriving Repr, DecidableEq

/-- `JSON.parse(data).data`: succeeds exactly on JSON bodies. -/
def jsonParseEnv : HttpBody → Option RespData
  | .jsonBody d => some d
  | .rawBody _ => none

/-- First character of a string, if any. -/
def strHead : String → Option Char :=
  fun s => s.data.head?

/-- `var respCode = (resp.statusCode).toString(); !respCode.startsWith('2')`
— the failure test on the decimal string of the status code
(`startsWith` with the one-character prefix `'2'` is: the first character
is `'2'`). -/
def statusStartsWith2 (status : Nat) : Bool :=
  strHead (toString status) == some '2'

/-- One `resolve`/`reject` call performed by a response handler, or the
handler throwing (`JSON.parse` failure) before settling. -/
inductive SettleAction where
  | rejectWith (p : RespData)
  | resolveData (p : RespData)
  | resolveRaw (b : HttpBody)
  | resolveUnit
  | crash
deriving Repr, DecidableEq

/-- The list of settle calls made by `sendV2Request`'s `resp.on('end', ...)`
handler, in source order:
```
if(isRequestFailed)      { reject(JSON.parse(data).data) }
else if(isExportReq)     { resolve(data); }
else if(hasResponse)     { resolve(JSON.parse(data).data); }
resolve();               // unconditional, no early return above
```
where `isRequestFailed = !respCode.startsWith('2')` and
`hasResponse = (respCode === '200')`. -/
def v2EndActions (status : Nat) (body : HttpBody) (isExportReq : Bool) :
    List SettleAction :=
  let isRequestFailed := !(statusStartsWith2 status)
  let hasResponse := (toString status) == "200"
  if isRequestFailed then
    match jsonParseEnv body with
    | some d => [.rejectWith d, .resolveUnit]
    | none => [.crash]
  else if isExportReq then
    [.resolveRaw body, .resolveUnit]
  else if hasResponse then
    match jsonParseEnv body with
    | some d => [.resolveData d, .resolveUnit]
    | none => [.crash]
  else
    [.resolveUnit]

/-- Value a settled V2 promise resolves with. -/
inductive V2Value where
  | raw (b : HttpBody)
  | data (d : RespData)
  | undef
deriving Repr, DecidableEq

/-- Observable outcome of one `sendV2Request` HTTP exchange. -/
inductive V2Outcome where
  | ok (v : V2Value)
  | err (p : RespData)
  | crash
deriving Repr, DecidableEq

/-- A promise settles once: the first `resolve`/`reject` call wins, later
calls are no-ops. (The handler always performs at least one action; the
empty case is unreachable and mapped to `crash`.) -/
def firstSettle : List SettleAction → V2Outcome
  | [] => .crash
  | .rejectWith p :: _ => .err p
  | .resolveData p :: _ => .ok (.data p)
  | .resolveRaw b :: _ => .ok (.raw b)
  | .resolveUnit :: _ => .ok .undef
  | .crash :: _ => .crash

/-- Observable outcome of one `sendV2Request` call, as a function of the
upstream status, body and the export flag. -/
def sendV2Outcome (status : Nat) (body : HttpBody) (isExportReq : Bool) :
    V2Outcome :=
  firstSettle (v2EndActions status body isExportReq)

/-! ## The export-request sender (`sendExportRequest`) -/

/-- Outcome of `sendExportRequest`'s response callback: on `statusCode !== 200`
parse the body and reject with its `data`; on 200, `fs.writeFileSync(filePath,
body); resolve()` — the body bytes are written unmodified, no JSON parsing. -/
inductive ExportOutcome where
  | wroteFile (bytesWritten : HttpBody)
  | err (p : RespData)
  | crash
deriving Repr, DecidableEq

/-- `sendExportRequest` response callback (`request.get` with `encoding:null`). -/
def sendExportRequestEnd (status : Nat) (body : HttpBody) : ExportOutcome :=
  if status ≠ 200 then
    match jsonParseEnv body with
    | some d => .err d
    | none => .crash
  else
    .wroteFile body

/-! ## The request pipeline (`handleV2Request`)

`handleV2Request` lazily fetches a token when `this.accessToken == null`,
issues `sendV2Request`, and in the `.catch` handler: when the rejected
error's `errorCode == "8535"` it refreshes the token once and re-issues
the same request exactly once (a second rejection, of any kind, is
re-thrown); any other rejection is re-thrown immediately.

The environment is modelled by two oracles: `oauth k` is the outcome of
the `k`-th `getOauth()` call of this logical call, and `attempts i` the
observable outcome of the `i`-th `sendV2Request` HTTP exchange. The model
records the result, the ordered list of refresh/attempt events, and the
final cached `accessToken`. -/

/-- A pipeline event: a `getOauth()` token fetch or a `sendV2Request` issue. -/
inductive PipeEv where
  | refresh
  | attempt
deriving Repr, DecidableEq

/-- Result of a `handleV2Request` logical call. -/
inductive HResult where
  | ok (v : V2Value)
  | err (p : RespData)
  | oauthFail (e : OauthErr)
  | crash
deriving Repr, DecidableEq

/-- Trace of one `handleV2Request` logical call. -/
structure PipeTrace where
  result : HResult
  events : List PipeEv
  finalToken : Option String
deriving Repr, DecidableEq

/-- The part of `handleV2Request` after a token `tok0` is in hand (`k` oauth
calls and `pre` events already happened): first attempt, then the single
`.catch` refresh-and-retry on `errorCode == "8535"`. On a failed refresh the
`await` rethrows before the assignment, so the cached token stays `tok0`. -/
def handleV2AfterToken (tok0 : String) (k : Nat) (pre : List PipeEv)
    (oauth : Nat → Except OauthErr String) (attempts : Nat → V2Outcome) :
    PipeTrace :=
  match attempts 0 with
  | .ok v => ⟨.ok v, pre ++ [.attempt], some tok0⟩
  | .crash => ⟨.crash, pre ++ [.attempt], some tok0⟩
  | .err p =>
    if p.getErrorCode == some "8535" then
      match oauth k with
      | .error e => ⟨.oauthFail e, pre ++ [.attempt, .refresh], some tok0⟩
      | .ok tok1 =>
        match attempts 1 with
        | .ok v => ⟨.ok v, pre ++ [.attempt, .refresh, .attempt], some tok1⟩
        | .err p2 => ⟨.err p2, pre ++ [.attempt, .refresh, .attempt], some tok1⟩
        | .crash => ⟨.crash, pre ++ [.attempt, .refresh, .attempt], some tok1⟩
    else
      ⟨.err p, pre ++ [.attempt], some tok0⟩

/-- `handleV2Request`: `if(this.accessToken == null) this.accessToken = await
this.getOauth();` then attempt/catch/retry as in `handleV2AfterToken`. -/
def handleV2Model (initToken : Option String)
    (oauth : Nat → Except OauthErr String) (attempts : Nat → V2Outcome) :
    PipeTrace :=
  match initToken with
  | none =>
    match oauth 0 with
    | .error e => ⟨.oauthFail e, [.refresh], none⟩
    | .ok t0 => handleV2AfterToken t0 1 [.refresh] oauth attempts
  | some t0 => handleV2AfterToken t0 0 [] oauth attempts

/-! ## The relay (`server.js`) -/

/-- A relay event: a `refreshZohoToken()` call or a `fetch` of the Zoho API. -/
inductive RelayEv where
  | refresh
  | fetch
deriving Repr, DecidableEq

/-- One upstream response seen by the relay. -/
structure RelayResp where
  status : Nat
  body : HttpBody
deriving Repr, DecidableEq

/-- What the relay sends back to its client. -/
inductive RelayOutcome where
  | jsonSent (d : RespData)
  | error500
deriving Repr, DecidableEq

/-- `response.ok` of the Fetch API: status in the range 200–299. -/
def respOk (status : Nat) : Bool :=
  200 ≤ status && status ≤ 299

/-- Trace of one `handleZohoApiRequest` call. -/
structure RelayTrace where
  outcome : RelayOutcome
  events : List RelayEv
  finalToken : String
deriving Repr, DecidableEq

/-- `handleZohoApiRequest` (`server.js`): fetch; on status 401 refresh the
token, re-attach it and fetch once more; then on `!response.ok` throw (caught
as a 500), else parse the JSON body and send it (a parse failure is also
caught as a 500). `responses i` is the `i`-th upstream response, `newToken`
the token a refresh would install. -/
def handleZohoApiRequestModel (token : String) (newToken : String)
    (responses : Nat → RelayResp) : RelayTrace :=
  let r0 := responses 0
  if r0.status == 401 then
    let r1 := responses 1
    if respOk r1.status then
      match jsonParseEnv r1.body with
      | some d => ⟨.jsonSent d, [.fetch, .refresh, .fetch], newToken⟩
      | none => ⟨.error500, [.fetch, .refresh, .fetch], newToken⟩
    else
      ⟨.error500, [.fetch, .refresh, .fetch], newToken⟩
  else
    if respOk r0.status then
      match jsonParseEnv r0.body with
      | some d => ⟨.jsonSent d, [.fetch], token⟩
      | none => ⟨.error500, [.fetch], token⟩
    else
      ⟨.error500, [.fetch], token⟩

/-- `ensureZohoAccessToken` middleware: refresh exactly once when the cached
`zohoAccessToken` is falsy (the empty string), otherwise pass through. -/
def ensureZohoAccessTokenRefreshes (zohoAccessToken : String) : Nat :=
  if zohoAccessToken == "" then 1 else 0

/-! ## Batch import (`handleBatchImportRequest`) -/

/-- `Math.ceil(n / b)` on naturals (`b ≥ 1`). -/
def ceilDiv (n b : Nat) : Nat :=
  (n + b - 1) / b

/-- One chunk request of the batch-import loop: the file header followed by
that chunk's slice of data lines, and the `isLastBatch` / `batchKey` entries
of its `CONFIG`. -/
structure ChunkReq where
  content : List String
  isLastBatch : String
  batchKey : String
deriving Repr, DecidableEq

/-- The body of `handleBatchImportRequest`'s `for` loop: at index `i`, send
the header plus `fileContent.slice(batchSize*i, batchSize + i*batchSize)`
with `config.isLastBatch` set from `i == totalBatchCount - 1` and the
current `config.batchKey`; then set `config.batchKey` to the response's
`batchKey` (`resp i`) for the next iteration. -/
def batchLoop (hdr : String) (lines : List String) (B : Nat)
    (resp : Nat → String) (count : Nat) :
    Nat → Nat → String → List ChunkReq
  | 0, _, _ => []
  | remaining + 1, i, key =>
    { content := hdr :: ((lines.drop (B * i)).take B),
      isLastBatch := if i == count - 1 then "true" else "false",
      batchKey := key } :: batchLoop hdr lines B resp count remaining (i + 1) (resp i)

/-- `handleBatchImportRequest` after the file is read and split: the header
line is shifted off, `totalBatchCount = Math.ceil(totalLines / batchSize)`,
and `config.batchKey` starts as `"start"`. Returns the list of chunk
requests sent, in order. (The loop `for i in 0..count-1` is run with the
count of remaining iterations made explicit: `remaining = count - i`.) -/
def handleBatchImportModel (hdr : String) (lines : List String) (B : Nat)
    (resp : Nat → String) : List ChunkReq :=
  batchLoop hdr lines B resp (ceilDiv lines.length B)
    (ceilDiv lines.length B) 0 "start"

/-! ## Façade config shaping -/

/-- JS property assignment `obj[k] = v` on an object modelled as its ordered
own-property list: overwrite the value in place when the key exists,
otherwise append the new key. -/
def setKey : List (String × String) → String → String → List (String × String)
  | [], k, v => [(k, v)]
  | (k', v') :: rest, k, v =>
    if k' == k then (k', v) :: rest else (k', v') :: setKey rest k v

/-- JS property read `obj[k]`. -/
def lookupKey : List (String × String) → String → Option String
  | [], _ => none
  | (k', v') :: rest, k => if k' == k then some v' else lookupKey rest k

/-- `OrgAPI.createWorkspace`: `config.workspaceName = workspaceName;` — the
caller-supplied `config` object itself, as passed on to the pipeline. -/
def createWorkspaceConfig (workspaceName : String)
    (config : List (String × String)) : List (String × String) :=
  setKey config "workspaceName" workspaceName

/-- `ViewAPI.rename`: `config.viewName = viewName;` — the caller-supplied
`config` object itself, as passed on to the pipeline. -/
def renameViewConfig (viewName : String)
    (config : List (String × String)) : List (String × String) :=
  setKey config "viewName" viewName

/-! ## The `CONFIG` query-parameter codec

`sendV2Request` serializes a non-empty config object as
`uriPath + "?" + "CONFIG" + "=" + encodeURIComponent(JSON.stringify(config))`.
We embed `JSON.stringify`/`JSON.parse` over a JSON value type covering
strings, integer numbers, booleans, null, arrays and nested objects (the
source passes string, array, object and boolean config values), and
`encodeURIComponent`/`decodeURIComponent` in full (percent-encoding of the
UTF-8 bytes of every character outside the unreserved set). JS strings are
`List Char`; an object is its ordered own-property list. Non-integral JSON
numbers are outside the model (the source's config values carry none). -/

/-- Quote character (`"`), kept as a named constant. -/
def quoteChar : Char := Char.ofNat 34

/-- Backslash character (`\`), kept as a named constant. -/
def backslashChar : Char := Char.ofNat 92

/-- Opening brace character of a JSON object literal. -/
def lbraceChar : Char := Char.ofNat 123

/-- Closing brace character of a JSON object literal. -/
def rbraceChar : Char := Char.ofNat 125

/-- Uppercase hex digit (as emitted by `encodeURIComponent`). -/
def hexDigitUpper (n : Nat) : Char :=
  if n < 10 then Char.ofNat (48 + n) else Char.ofNat (55 + n)

/-- Lowercase hex digit (as emitted by `JSON.stringify`'s `\u00XY` escapes). -/
def hexDigitLower (n : Nat) : Char :=
  if n < 10 then Char.ofNat (48 + n) else Char.ofNat (87 + n)

/-- Numeric value of a hex digit character, upper- or lowercase. -/
def hexVal (c : Char) : Option Nat :=
  let n := c.toNat
  if 48 ≤ n && n ≤ 57 then some (n - 48)
  else if 65 ≤ n && n ≤ 70 then some (n - 55)
  else if 97 ≤ n && n ≤ 102 then some (n - 87)
  else none

/-- UTF-8 encoding of a Unicode scalar value, as a list of bytes. -/
def utf8Encode (n : Nat) : List Nat :=
  if n < 0x80 then [n]
  else if n < 0x800 then
    [0xC0 + n / 0x40, 0x80 + n % 0x40]
  else if n < 0x10000 then
    [0xE0 + n / 0x1000, 0x80 + (n / 0x40) % 0x40, 0x80 + n % 0x40]
  else
    [0xF0 + n / 0x40000, 0x80 + (n / 0x1000) % 0x40,
     0x80 + (n / 0x40) % 0x40, 0x80 + n % 0x40]

/-- The characters `encodeURIComponent` leaves unescaped:
`A–Z a–z 0–9 - _ . ! ~ * ' ( )`. -/
def isUriUnreserved (c : Char) : Bool :=
  let n := c.toNat
  (65 ≤ n && n ≤ 90) || (97 ≤ n && n ≤ 122) || (48 ≤ n && n ≤ 57) ||
  n == 45 || n == 95 || n == 46 || n == 33 || n == 126 || n == 42 ||
  n == 39 || n == 40 || n == 41

/-- Percent-encoding of one byte: `%` followed by two uppercase hex digits. -/
def pctEncodeByte (b : Nat) : List Char :=
  ['%', hexDigitUpper (b / 16), hexDigitUpper (b % 16)]

/-- `encodeURIComponent` on one character: kept verbatim when unreserved,
otherwise each UTF-8 byte of the character is percent-encoded. -/
def encodeURIComponentChar (c : Char) : List Char :=
  if isUriUnreserved c then [c]
  else ((utf8Encode c.toNat).map pctEncodeByte).flatten

/-- `encodeURIComponent` on a string. -/
def encodeURIComponentL (s : List Char) : List Char :=
  (s.map encodeURIComponentChar).flatten

/-- First decoding phase of `decodeURIComponent`: each `%XY` becomes the
byte `0xXY` (failing on a `%` not followed by two hex digits), every other
character passes through verbatim. -/
def pctTokenize : List Char → Option (List (Sum Char Nat))
  | [] => some []
  | c :: rest =>
    if c == '%' then
      match rest with
      | h :: l :: rest2 =>
        match hexVal h, hexVal l with
        | some hv, some lv =>
          (pctTokenize rest2).map (fun ts => Sum.inr (16 * hv + lv) :: ts)
        | _, _ => none
      | _ => none
    else
      (pctTokenize rest).map (fun ts => Sum.inl c :: ts)

/-- Reads `k` UTF-8 continuation bytes off the token stream, accumulating
the scalar value onto `acc`; fails on anything that is not a continuation
byte. -/
def utf8Cont (acc : Nat) : Nat → List (Sum Char Nat) → Option (Nat × List (Sum Char Nat))
  | 0, ts => some (acc, ts)
  | k + 1, Sum.inr b :: ts =>
    if 0x80 ≤ b ∧ b < 0xC0 then
      utf8Cont (acc * 0x40 + (b - 0x80)) k ts
    else none
  | _ + 1, _ => none

/-- Second decoding phase of `decodeURIComponent`: runs of percent-decoded
bytes are decoded as UTF-8 (a non-scalar value, a stray or missing
continuation byte fails), literal characters pass through. (Rejection of
overlong encodings is not modelled; the encoder never emits them, so this
is invisible to the round-trip.) -/
def utf8Detok : List (Sum Char Nat) → Option (List Char)
  | [] => some []
  | Sum.inl c :: ts => (utf8Detok ts).map (fun l => c :: l)
  | Sum.inr b :: ts =>
    if b < 0x80 then (utf8Detok ts).map (fun l => Char.ofNat b :: l)
    else if b < 0xC0 then none
    else if b < 0xF8 then
      let k := if b < 0xE0 then 1 else if b < 0xF0 then 2 else 3
      let lead := if b < 0xE0 then b - 0xC0 else if b < 0xF0 then b - 0xE0 else b - 0xF0
      match h : utf8Cont lead k ts with
      | some (n, ts2) =>
        if Nat.isValidChar n then (utf8Detok ts2).map (fun l => Char.ofNat n :: l)
        else none
      | none => none
    else none
termination_by ts => ts.length
decreasing_by
  · simp
  · simp
  · have key : ∀ (acc k : Nat) (l l2 : List (Sum Char Nat)) (m : Nat),
        utf8Cont acc k l = some (m, l2) → l2.length ≤ l.length := by
      intro acc k
      induction k generalizing acc with
      | zero =>
        intro l l2 m hh
        simp [utf8Cont] at hh
        simp [hh.2]
      | succ j ih =>
        intro l l2 m hh
        cases l with
        | nil => simp [utf8Cont] at hh
        | cons t tr =>
          cases t with
          | inl c => simp [utf8Cont] at hh
          | inr b =>
            simp only [utf8Cont] at hh
            split at hh
            · have := ih (acc * 0x40 + (b - 0x80)) tr l2 m hh
              simp
              omega
            · exact absurd hh (by simp)
    have := key _ _ _ _ _ h
    simp
    omega

/-- `decodeURIComponent` on a string. -/
def decodeURIComponentL (s : List Char) : Option (List Char) :=
  (pctTokenize s).bind utf8Detok

/-- The token list one character contributes after percent-decoding: itself
when unreserved, otherwise its UTF-8 bytes. -/
def uriCharTokens (c : Char) : List (Sum Char Nat) :=
  if isUriUnreserved c then [Sum.inl c]
  else (utf8Encode c.toNat).map Sum.inr

/-- `JSON.stringify`'s escaping of one string character: `\"`, `\\`, the
named control escapes `\b \t \n \f \r`, `\u00XY` (lowercase hex) for the
remaining control characters, everything else verbatim. -/
def jsonEscapeChar (c : Char) : List Char :=
  if c == quoteChar then [backslashChar, quoteChar]
  else if c == backslashChar then [backslashChar, backslashChar]
  else if c.toNat == 8 then [backslashChar, 'b']
  else if c.toNat == 9 then [backslashChar, 't']
  else if c.toNat == 10 then [backslashChar, 'n']
  else if c.toNat == 12 then [backslashChar, 'f']
  else if c.toNat == 13 then [backslashChar, 'r']
  else if c.toNat < 32 then
    [backslashChar, 'u', '0', '0',
     hexDigitLower (c.toNat / 16), hexDigitLower (c.toNat % 16)]
  else [c]

/-- A JSON string literal: quote, escaped characters, quote. -/
def jsonQuote (s : List Char) : List Char :=
  quoteChar :: (s.map jsonEscapeChar).flatten ++ [quoteChar]

/-- The `\uXXXX` escape of a JSON string: four hex digits after the `u`.
(Surrogate-pair `\uXXXX\uXXXX` escapes are not modelled; `JSON.stringify`
only emits `\u00XY`, so this is invisible to the round-trip.) -/
def jsonParseU : List Char → Option (Char × Nat)
  | h1 :: h2 :: h3 :: h4 :: _ =>
    match hexVal h1, hexVal h2, hexVal h3, hexVal h4 with
    | some a, some b, some c2, some d =>
      let n := ((a * 16 + b) * 16 + c2) * 16 + d
      if Nat.isValidChar n then some (Char.ofNat n, 5) else none
    | _, _, _, _ => none
  | _ => none

/-- One escape sequence of a JSON string, read after the backslash:
returns the decoded character and how many characters the sequence used. -/
def jsonParseEscape : List Char → Option (Char × Nat)
  | [] => none
  | e :: rest2 =>
    if e == quoteChar then some (quoteChar, 1)
    else if e == backslashChar then some (backslashChar, 1)
    else if e == '/' then some ('/', 1)
    else if e == 'b' then some (Char.ofNat 8, 1)
    else if e == 't' then some (Char.ofNat 9, 1)
    else if e == 'n' then some (Char.ofNat 10, 1)
    else if e == 'f' then some (Char.ofNat 12, 1)
    else if e == 'r' then some (Char.ofNat 13, 1)
    else if e == 'u' then jsonParseU rest2
    else none

/-- `JSON.parse` of a string body (after the opening quote): plain
characters until the closing quote, with the standard escapes; raw control
characters are rejected. -/
def jsonParseStringBody : List Char → Option (List Char × List Char)
  | [] => none
  | c :: rest =>
    if c == quoteChar then some ([], rest)
    else if c == backslashChar then
      match jsonParseEscape rest with
      | some (ch, used) =>
        (jsonParseStringBody (rest.drop used)).map (fun p => (ch :: p.1, p.2))
      | none => none
    else if c.toNat < 32 then none
    else (jsonParseStringBody rest).map (fun p => (c :: p.1, p.2))
termination_by l => l.length
decreasing_by
  · simp [List.length_drop]
    omega
  · simp

/-- A JSON value as the source's config objects carry them: strings,
integer numbers, booleans, null, arrays (`emailIds`, `viewIds`, `columns`)
and nested objects. JSON numbers are modelled at integers; the source's
config values carry no fractional numbers. -/
inductive JVal where
  | str (s : List Char)
  | num (n : Int)
  | bool (b : Bool)
  | null
  | arr (xs : List JVal)
  | obj (kvs : List (List Char × JVal))

/-- Decimal digits of a natural number, most significant first. -/
def natChars (n : Nat) : List Char :=
  if h : n < 10 then [Char.ofNat (48 + n)]
  else natChars (n / 10) ++ [Char.ofNat (48 + n % 10)]
termination_by n
decreasing_by omega

/-- Decimal rendering of an integer, with a leading `-` when negative
(how `JSON.stringify` prints an integral number). -/
def intChars : Int → List Char
  | .ofNat n => natChars n
  | .negSucc m => '-' :: natChars (m + 1)

mutual
/-- `JSON.stringify` of a JSON value: quoted-and-escaped strings, decimal
numbers, `true`/`false`/`null`, `[..]` arrays and `\x7b..\x7d` objects with
comma-separated members and no whitespace. -/
def jvalStringify : JVal → List Char
  | .str s => jsonQuote s
  | .num n => intChars n
  | .bool b => if b then ['t', 'r', 'u', 'e'] else ['f', 'a', 'l', 's', 'e']
  | .null => ['n', 'u', 'l', 'l']
  | .arr xs => '[' :: jvalStringifyArr xs ++ [']']
  | .obj kvs => lbraceChar :: jvalStringifyKVs kvs ++ [rbraceChar]

/-- The element list of a stringified array: elements joined by commas. -/
def jvalStringifyArr : List JVal → List Char
  | [] => []
  | [x] => jvalStringify x
  | x :: y :: rest => jvalStringify x ++ ',' :: jvalStringifyArr (y :: rest)

/-- The member list of a stringified object: `"key":value` pairs joined by
commas. -/
def jvalStringifyKVs : List (List Char × JVal) → List Char
  | [] => []
  | [(k, v)] => jsonQuote k ++ ':' :: jvalStringify v
  | (k, v) :: kv2 :: rest =>
    jsonQuote k ++ ':' :: jvalStringify v ++ ',' :: jvalStringifyKVs (kv2 :: rest)
end

/-- Decimal digit test on a character. -/
def isDigitCh (c : Char) : Bool :=
  48 ≤ c.toNat && c.toNat ≤ 57

/-- Longest digit prefix of a character list, with the remainder. -/
def takeDigits : List Char → (List Char × List Char)
  | [] => ([], [])
  | c :: rest =>
    if isDigitCh c then
      let p := takeDigits rest
      (c :: p.1, p.2)
    else ([], c :: rest)

/-- Value of a digit list read into an accumulator, most significant
first. -/
def digitsVal : List Char → Nat → Nat
  | [], acc => acc
  | c :: rest, acc => digitsVal rest (acc * 10 + (c.toNat - 48))

/-- After a parsed integer literal, the input may not continue with a
digit, `.`, `e` or `E`: fraction and exponent syntax is out of the model,
so such inputs are rejected rather than misread. -/
def numStop (r : List Char) : Bool :=
  match r.head? with
  | none => true
  | some c => !(isDigitCh c || c == '.' || c == 'e' || c == 'E')

/-- Parse a natural-number literal: a nonempty digit prefix not followed by
more number syntax. -/
def parseNatNum (l : List Char) : Option (Nat × List Char) :=
  let p := takeDigits l
  if p.1.isEmpty then none
  else if numStop p.2 then some (digitsVal p.1 0, p.2) else none

/-- Parse an integer literal: an optional leading `-` then digits. -/
def jvalParseNum (l : List Char) : Option (Int × List Char) :=
  if l.head? == some '-' then
    (parseNatNum l.tail).map (fun p => (-(p.1 : Int), p.2))
  else
    (parseNatNum l).map (fun p => ((p.1 : Int), p.2))

/-- Consume an expected literal character by character. -/
def dropLit : List Char → List Char → Option (List Char)
  | [], s => some s
  | _ :: _, [] => none
  | c :: cs, x :: xs => if x == c then dropLit cs xs else none

mutual
/-- `JSON.parse` of one whitespace-free JSON value, fuelled: dispatch on
the first character to a string, object, array, `true`/`false`/`null`
literal or number; returns the value and the remaining input. -/
def jvalParse : Nat → List Char → Option (JVal × List Char)
  | 0, _ => none
  | _ + 1, [] => none
  | fuel + 1, c :: rest =>
    if c == quoteChar then
      (jsonParseStringBody rest).map (fun p => (.str p.1, p.2))
    else if c == lbraceChar then
      if rest.head? == some rbraceChar then some (.obj [], rest.tail)
      else (jvalParseKVs fuel rest).map (fun p => (.obj p.1, p.2))
    else if c == '[' then
      if rest.head? == some ']' then some (.arr [], rest.tail)
      else (jvalParseItems fuel rest).map (fun p => (.arr p.1, p.2))
    else if c == 't' then
      (dropLit ['r', 'u', 'e'] rest).map (fun r => (.bool true, r))
    else if c == 'f' then
      (dropLit ['a', 'l', 's', 'e'] rest).map (fun r => (.bool false, r))
    else if c == 'n' then
      (dropLit ['u', 'l', 'l'] rest).map (fun r => (.null, r))
    else
      match jvalParseNum (c :: rest) with
      | some (n, r) => some (.num n, r)
      | none => none

/-- Parse the nonempty element list of an array, after the `[`: values
separated by `,` up to the closing `]`. -/
def jvalParseItems : Nat → List Char → Option (List JVal × List Char)
  | 0, _ => none
  | fuel + 1, l =>
    match jvalParse fuel l with
    | none => none
    | some (v, r) =>
      match r with
      | [] => none
      | d :: r2 =>
        if d == ',' then
          (jvalParseItems fuel r2).map (fun p => (v :: p.1, p.2))
        else if d == ']' then some ([v], r2)
        else none

/-- Parse the nonempty member list of an object, after the opening brace:
`"key":value` pairs separated by `,` up to the closing brace. -/
def jvalParseKVs : Nat → List Char → Option (List (List Char × JVal) × List Char)
  | 0, _ => none
  | _ + 1, [] => none
  | fuel + 1, c :: rest =>
    if c == quoteChar then
      match jsonParseStringBody rest with
      | none => none
      | some (k, r1) =>
        match r1 with
        | [] => none
        | c1 :: r2 =>
          if c1 == ':' then
            match jvalParse fuel r2 with
            | none => none
            | some (v, r3) =>
              match r3 with
              | [] => none
              | d :: r4 =>
                if d == ',' then
                  (jvalParseKVs fuel r4).map (fun p => ((k, v) :: p.1, p.2))
                else if d == rbraceChar then some ([(k, v)], r4)
                else none
          else none
    else none
end

/-- `JSON.parse` of a complete JSON value (whitespace-free, as
`JSON.stringify` emits it): the input's length plus one is always enough
fuel, and the whole input must be consumed. -/
def jvalParseTop (s : List Char) : Option JVal :=
  match jvalParse (s.length + 1) s with
  | some (v, r) => if r.isEmpty then some v else none
  | none => none

mutual
/-- Fuel sufficient to parse a value: one unit per value constructor. -/
def jvalFuel : JVal → Nat
  | .arr xs => 1 + jvalListFuel xs
  | .obj kvs => 1 + jvalKVFuel kvs
  | _ => 1

/-- Fuel sufficient to parse an array's element list. -/
def jvalListFuel : List JVal → Nat
  | [] => 0
  | x :: rest => 1 + jvalFuel x + jvalListFuel rest

/-- Fuel sufficient to parse an object's member list. -/
def jvalKVFuel : List (List Char × JVal) → Nat
  | [] => 0
  | (_, v) :: rest => 1 + jvalFuel v + jvalKVFuel rest
end

/-- The serialization `sendV2Request` applies to a config object:
`encodeURIComponent(JSON.stringify(config))`. -/
def encodeConfigParam (cfg : List (List Char × JVal)) : List Char :=
  encodeURIComponentL (jvalStringify (JVal.obj cfg))

/-- The upstream decoding of the `CONFIG` query parameter:
`decodeURIComponent` then `JSON.parse`. -/
def decodeConfigParam (s : List Char) : Option JVal :=
  (decodeURIComponentL s).bind jvalParseTop

/-- `sendV2Request`'s path construction: the `CONFIG` parameter is appended
only when the config is non-null (`some`) and has at least one key. -/
def appendConfigParam (uriPath : List Char)
    (config : Option (List (List Char × JVal))) : List Char :=
  match config with
  | none => uriPath
  | some cfg =>
    if cfg.length != 0 then
      uriPath ++ '?' :: ('C' :: 'O' :: 'N' :: 'F' :: 'I' :: 'G' :: '=' :: encodeConfigParam cfg)
    else uriPath

/-- A concrete config mixing the value shapes the source passes: a boolean
(`isLastBatch` in `handleBatchImportRequest`), a string array (`emailIds`
in `shareViews`), an integer, and a nested object holding null. -/
def sampleConfig : List (List Char × JVal) :=
  [("isLastBatch".data, JVal.bool true),
   ("emailIds".data, JVal.arr [JVal.str "a@b.c".data, JVal.str "d@e.f".data]),
   ("batchSize".data, JVal.num 2),
   ("meta".data, JVal.obj [("note".data, JVal.null)])]

/-! # Theorems -/

/-! ## Helper lemmas on the status-code string test -/

set_option maxRecDepth 4000 in
/-- For a status in 200–299 the decimal string starts with `'2'`. -/
theorem statusStartsWith2_of_2xx (s : Nat) (h1 : 200 ≤ s) (h2 : s ≤ 299) :
    statusStartsWith2 s = true := by
  have h : ∀ s, s < 300 → 200 ≤ s → statusStartsWith2 s = true := by decide
  exact h s (by omega) h1

set_option maxRecDepth 4000 in
/-- For a status in 201–299 the decimal string is not `"200"`. -/
theorem statusToString_ne_200 (s : Nat) (h1 : 200 < s) (h2 : s ≤ 299) :
    ((toString s) == "200") = false := by
  have h : ∀ s, s < 300 → 200 < s → ((toString s) == "200") = false := by decide
  exact h s (by omega) h1

/-! ## C10 — 2xx-but-not-200 non-export responses resolve with `undefined` -/

/-- C10: for every non-export call through `sendV2Request` whose upstream
HTTP status is 2xx but not exactly 200, the only settle call the end
handler makes is the trailing bare `resolve()`: the promise resolves with
`undefined`, the body (JSON or not) is never parsed and its content is
discarded. -/
theorem sendV2_2xx_not200_resolves_undefined (status : Nat) (body : HttpBody)
    (h1 : 200 < status) (h2 : status ≤ 299) :
    sendV2Outcome status body false = .ok .undef
    ∧ v2EndActions status body false = [.resolveUnit] := by
  have hs : statusStartsWith2 status = true :=
    statusStartsWith2_of_2xx status (by omega) h2
  have hne : ((toString status) == "200") = false :=
    statusToString_ne_200 status h1 h2
  refine ⟨?_, ?_⟩
  · simp [sendV2Outcome, v2EndActions, hs, hne, firstSettle]
  · simp [v2EndActions, hs, hne]

/-- Witness for C10 at status 201 with a non-JSON body. -/
theorem sendV2_2xx_not200_resolves_undefined_witness :
    (200 < 201 ∧ 201 ≤ 299)
    ∧ sendV2Outcome 201 (.rawBody [7]) false = .ok .undef :=
  ⟨⟨by decide, by decide⟩,
    (sendV2_2xx_not200_resolves_undefined 201 (.rawBody [7])
      (by decide) (by decide)).1⟩

/-! ## C8 — the end handler's unconditional trailing `resolve()` -/

/-- C8: `sendV2Request`'s response-end handler always ends with the
unconditional bare `resolve()` (unless it crashed in `JSON.parse`), so on a
non-2xx JSON response the handler performs *both* a `reject` and a
`resolve`: resolution and rejection are not mutually exclusive outcomes of
the handler. -/
theorem v2End_unconditional_resolve :
    (∀ (status : Nat) (body : HttpBody) (isExportReq : Bool),
      (v2EndActions status body isExportReq).getLast? = some .resolveUnit
      ∨ v2EndActions status body isExportReq = [.crash])
    ∧ (∀ (d : RespData) (isExportReq : Bool),
      v2EndActions 404 (.jsonBody d) isExportReq
        = [.rejectWith d, .resolveUnit]) := by
  constructor
  · intro status body isExportReq
    simp only [v2EndActions]
    split
    · cases body <;> simp [jsonParseEnv]
    · split
      · simp
      · split
        · cases body <;> simp [jsonParseEnv]
        · simp
  · intro d isExportReq
    have h404 : statusStartsWith2 404 = false := by decide
    simp [v2EndActions, h404, jsonParseEnv]

/-! ## C6 — export calls return/write the exact bytes, no JSON parse -/

/-- C6: on HTTP 200, an export call through `sendV2Request` resolves with
the exact response body (even when it is not valid JSON, so no JSON parse
is ever attempted), and `sendExportRequest` writes the exact body to the
target file and resolves. -/
theorem export_200_exact_bytes (body : HttpBody) :
    sendV2Outcome 200 body true = .ok (.raw body)
    ∧ v2EndActions 200 body true = [.resolveRaw body, .resolveUnit]
    ∧ sendExportRequestEnd 200 body = .wroteFile body := by
  have hs : statusStartsWith2 200 = true := by decide
  refine ⟨?_, ?_, ?_⟩
  · simp [sendV2Outcome, v2EndActions, hs, firstSettle]
  · simp [v2EndActions, hs]
  · simp [sendExportRequestEnd]

/-! ## C2 — non-expiry non-2xx fails immediately, zero retries -/

/-- C2: when the first attempt's upstream response has a non-2xx status and
its envelope's error payload does not carry the expiry sentinel `"8535"`,
`sendV2Request` rejects with exactly that payload (`respJSON.data`) and
`handleV2Request` re-throws it at once: the whole call performs exactly one
HTTP attempt and no token refresh beyond the lazy initial fetch. -/
theorem non_expiry_non2xx_fails_immediately (initToken : Option String)
    (oauthT : Nat → String) (rest : Nat → V2Outcome)
    (status : Nat) (d : RespData)
    (hs : statusStartsWith2 status = false)
    (hcode : d.getErrorCode ≠ some "8535") :
    sendV2Outcome status (.jsonBody d) false = .err d
    ∧ (handleV2Model initToken (fun j => .ok (oauthT j))
        (fun i => if i = 0 then sendV2Outcome status (.jsonBody d) false
          else rest i)).result = .err d
    ∧ (handleV2Model initToken (fun j => .ok (oauthT j))
        (fun i => if i = 0 then sendV2Outcome status (.jsonBody d) false
          else rest i)).events
      = (if initToken.isNone then [PipeEv.refresh] else []) ++ [PipeEv.attempt] := by
  have hout : sendV2Outcome status (.jsonBody d) false = .err d := by
    simp [sendV2Outcome, v2EndActions, hs, jsonParseEnv, firstSettle]
  have hbeq : (d.getErrorCode == some "8535") = false := by
    simpa using hcode
  refine ⟨hout, ?_, ?_⟩ <;>
    cases initToken <;>
      simp [handleV2Model, handleV2AfterToken, hout, hbeq]

/-- Witness for C2: status 404, upstream code `"7301"`, cached token. -/
theorem non_expiry_non2xx_fails_immediately_witness :
    (statusStartsWith2 404 = false
      ∧ (RespData.errInfo "7301" "forbidden").getErrorCode ≠ some "8535")
    ∧ (handleV2Model (some "tok") (fun _ => .ok "t2")
        (fun i => if i = 0 then
            sendV2Outcome 404 (.jsonBody (.errInfo "7301" "forbidden")) false
          else .crash)).result = .err (.errInfo "7301" "forbidden") :=
  ⟨⟨by decide, by decide⟩,
    (non_expiry_non2xx_fails_immediately (some "tok") (fun _ => "t2")
      (fun _ => .crash) 404 (.errInfo "7301" "forbidden")
      (by decide) (by decide)).2.1⟩

/-! ## C1 — exactly one refresh-and-retry on the expiry sentinel -/

/-- The events of `handleV2AfterToken` take one of exactly three shapes:
one attempt; one attempt then a failed refresh; or one attempt, one
refresh, one retry. -/
theorem handleV2AfterToken_events (t : String) (k : Nat) (pre : List PipeEv)
    (oa : Nat → Except OauthErr String) (at2 : Nat → V2Outcome) :
    (handleV2AfterToken t k pre oa at2).events = pre ++ [.attempt]
    ∨ (handleV2AfterToken t k pre oa at2).events = pre ++ [.attempt, .refresh]
    ∨ (handleV2AfterToken t k pre oa at2).events
        = pre ++ [.attempt, .refresh, .attempt] := by
  unfold handleV2AfterToken
  cases hat : at2 0 with
  | ok v => simp
  | crash => simp
  | err p =>
    by_cases hc : (p.getErrorCode == some "8535") = true
    · simp only [hc, if_true]
      cases hoa : oa k with
      | error e => simp
      | ok t1 => cases hat1 : at2 1 <;> simp
    · simp only [Bool.not_eq_true] at hc
      simp [hc]

/-- C1: when the first attempt fails with the token-expired sentinel
(`errorCode "8535"` in the client, HTTP 401 in the relay), exactly one
token refresh followed by exactly one re-issue of the same request occurs,
and the retried attempt's outcome is final: a second expiry rejection is
re-thrown as is, with no third attempt. The third conjunct bounds *every*
call, in any environment, to at most two attempts (the cycle never loops);
the fourth states the same for the relay's 401 path. -/
theorem single_refresh_retry_on_expiry (initToken : Option String)
    (oauthT : Nat → String) (attempts : Nat → V2Outcome) (p : RespData)
    (h0 : attempts 0 = .err p) (hcode : p.getErrorCode = some "8535") :
    (handleV2Model initToken (fun j => .ok (oauthT j)) attempts).events
      = (if initToken.isNone then [PipeEv.refresh] else [])
        ++ [.attempt, .refresh, .attempt]
    ∧ (∀ p2, attempts 1 = .err p2 →
        (handleV2Model initToken (fun j => .ok (oauthT j)) attempts).result
          = .err p2)
    ∧ (∀ (it : Option String) (oa : Nat → Except OauthErr String)
          (at2 : Nat → V2Outcome),
        (handleV2Model it oa at2).events.count PipeEv.attempt ≤ 2)
    ∧ (∀ (token newToken : String) (responses : Nat → RelayResp),
        (responses 0).status = 401 →
        (handleZohoApiRequestModel token newToken responses).events
          = [.fetch, .refresh, .fetch]
        ∧ ((responses 1).status = 401 →
          (handleZohoApiRequestModel token newToken responses).outcome
            = .error500)) := by
  have hbeq : (p.getErrorCode == some "8535") = true := by simp [hcode]
  refine ⟨?_, ?_, ?_, ?_⟩
  · cases initToken <;> cases hat1 : attempts 1 <;>
      simp [handleV2Model, handleV2AfterToken, h0, hbeq, hat1]
  · intro p2 h1
    cases initToken <;> simp [handleV2Model, handleV2AfterToken, h0, hbeq, h1]
  · intro it oa at2
    have hcount : ∀ (t : String) (k : Nat) (pre : List PipeEv),
        (handleV2AfterToken t k pre oa at2).events.count PipeEv.attempt
          ≤ pre.count PipeEv.attempt + 2 := by
      intro t k pre
      rcases handleV2AfterToken_events t k pre oa at2 with h | h | h <;>
        simp [h, List.count_append]
    cases it with
    | none =>
      cases hoa : oa 0 with
      | error e => simp [handleV2Model, hoa]
      | ok t =>
        have h2 := hcount t 1 [.refresh]
        simp only [handleV2Model, hoa]
        simpa using h2
    | some t =>
      have h2 := hcount t 0 []
      simp only [handleV2Model]
      simpa using h2
  · intro token newToken responses h401
    refine ⟨?_, ?_⟩
    · by_cases hro : respOk (responses 1).status = true
      · cases hb : (responses 1).body <;>
          simp [handleZohoApiRequestModel, h401, hro, hb, jsonParseEnv]
      · simp [handleZohoApiRequestModel, h401, hro]
    · intro h401b
      simp [handleZohoApiRequestModel, h401, h401b, respOk]

/-- Witness for C1: cached token, both attempts reject with the expiry
sentinel — one refresh, one retry, terminal error, two attempts total. -/
theorem single_refresh_retry_on_expiry_witness :
    ((fun _ : Nat => V2Outcome.err (.errInfo "8535" "expired")) 0
        = V2Outcome.err (.errInfo "8535" "expired")
      ∧ (RespData.errInfo "8535" "expired").getErrorCode = some "8535")
    ∧ (handleV2Model (some "tokOld") (fun _ => .ok "tokNew")
        (fun _ => V2Outcome.err (.errInfo "8535" "expired"))).events
      = [PipeEv.attempt, .refresh, .attempt]
    ∧ (handleV2Model (some "tokOld") (fun _ => .ok "tokNew")
        (fun _ => V2Outcome.err (.errInfo "8535" "expired"))).result
      = .err (.errInfo "8535" "expired") :=
  have h := single_refresh_retry_on_expiry (some "tokOld") (fun _ => "tokNew")
    (fun _ => V2Outcome.err (.errInfo "8535" "expired"))
    (.errInfo "8535" "expired") rfl rfl
  ⟨⟨rfl, rfl⟩, by simpa using h.1, h.2.1 _ rfl⟩

/-! ## C3 — lazy single token fetch, cached token reused -/

/-- C3: with no cached token, exactly one oauth fetch precedes the first
HTTP attempt (whatever the attempts return); with a cached token no fetch
precedes it. When the first attempt succeeds, the call performs no further
fetch, and in the uncached case the fetched token is cached. The relay's
`ensureZohoAccessToken` middleware likewise refreshes exactly once iff its
cached token is empty. -/
theorem lazy_single_token_fetch (oauthT : Nat → String)
    (attempts att2 : Nat → V2Outcome) (t : String) (v : V2Value)
    (hok : attempts 0 = .ok v) (ht : t ≠ "") :
    (handleV2Model none (fun j => .ok (oauthT j)) att2).events.take 2
      = [PipeEv.refresh, PipeEv.attempt]
    ∧ (handleV2Model (some t) (fun j => .ok (oauthT j)) att2).events.head?
      = some PipeEv.attempt
    ∧ (handleV2Model none (fun j => .ok (oauthT j)) attempts).events
      = [PipeEv.refresh, PipeEv.attempt]
    ∧ (handleV2Model none (fun j => .ok (oauthT j)) attempts).finalToken
      = some (oauthT 0)
    ∧ (handleV2Model (some t) (fun j => .ok (oauthT j)) attempts).events
      = [PipeEv.attempt]
    ∧ ensureZohoAccessTokenRefreshes "" = 1
    ∧ ensureZohoAccessTokenRefreshes t = 0 := by
  refine ⟨?_, ?_, ?_, ?_, ?_, rfl, ?_⟩
  · simp only [handleV2Model]
    rcases handleV2AfterToken_events (oauthT 0) 1 [.refresh]
      (fun j => .ok (oauthT j)) att2 with h | h | h <;> simp [h]
  · simp only [handleV2Model]
    rcases handleV2AfterToken_events t 0 []
      (fun j => .ok (oauthT j)) att2 with h | h | h <;> simp [h]
  · simp [handleV2Model, handleV2AfterToken, hok]
  · simp [handleV2Model, handleV2AfterToken, hok]
  · simp [handleV2Model, handleV2AfterToken, hok]
  · simp [ensureZohoAccessTokenRefreshes, ht]

/-- Witness for C3 with a successful first attempt and cached token `"tokB"`. -/
theorem lazy_single_token_fetch_witness :
    ((fun _ : Nat => V2Outcome.ok V2Value.undef) 0 = V2Outcome.ok V2Value.undef
      ∧ ("tokB" : String) ≠ "")
    ∧ (handleV2Model none (fun _ => .ok "tokA")
        (fun _ => V2Outcome.ok V2Value.undef)).events
      = [PipeEv.refresh, PipeEv.attempt]
    ∧ (handleV2Model none (fun _ => .ok "tokA")
        (fun _ => V2Outcome.ok V2Value.undef)).finalToken = some "tokA" :=
  have h := lazy_single_token_fetch (fun _ => "tokA")
    (fun _ => V2Outcome.ok V2Value.undef) (fun _ => V2Outcome.ok V2Value.undef)
    "tokB" V2Value.undef rfl (by decide)
  ⟨⟨rfl, by decide⟩, h.2.2.1, h.2.2.2.1⟩

/-! ## C4 — `getOauth` is keyed on the `error` field (corrected) -/

/-- C4 counterexample: an upstream OAuth response lacking both
`access_token` and `error` (e.g. the JSON text `{}`) makes `getOauth`
*succeed*, resolving with `undefined` — refuting the claim that the
exchange fails whenever the response lacks an access token. -/
theorem getOauth_succeeds_without_token :
    ({ access_token := none, error := none } : OauthResp).access_token = none
    ∧ getOauthEnd { access_token := none, error := none } = .ok none :=
  ⟨rfl, rfl⟩

/-- C4 amended: `getOauth` fails — with `errorCode "0"` carrying the
upstream error message — if and only if the response's `error` field is
truthy; when it is not, it resolves with the `access_token` value whether
or not that field is present. The relay's `refreshZohoToken`, by contrast,
succeeds iff `access_token` is truthy. -/
theorem getOauth_keyed_on_error_field (r : OauthResp) (e : String)
    (he : r.error = some e) (hne : e ≠ "") :
    getOauthEnd r = .error { errorCode := "0", errorMessage := e }
    ∧ (∀ r2 : OauthResp, jsTruthy r2.error = false →
        getOauthEnd r2 = .ok r2.access_token)
    ∧ (∀ r2 : OauthResp,
        (∃ err, getOauthEnd r2 = .error err) ↔ jsTruthy r2.error = true)
    ∧ (∀ r2 : OauthResp,
        (∃ tok, refreshZohoTokenEnd r2 = .ok tok)
          ↔ jsTruthy r2.access_token = true) := by
  refine ⟨?_, ?_, ?_, ?_⟩
  · simp [getOauthEnd, he, jsTruthy, hne]
  · intro r2 h
    simp [getOauthEnd, h]
  · intro r2
    by_cases h : jsTruthy r2.error = true <;> simp [getOauthEnd, h]
  · intro r2
    by_cases h : jsTruthy r2.access_token = true <;>
      simp [refreshZohoTokenEnd, h]

/-- Witness for the amended C4 at a response carrying `error:
"invalid_code"`. -/
theorem getOauth_keyed_on_error_field_witness :
    (({ access_token := none, error := some "invalid_code" } : OauthResp).error
        = some "invalid_code"
      ∧ ("invalid_code" : String) ≠ "")
    ∧ getOauthEnd { access_token := none, error := some "invalid_code" }
      = .error { errorCode := "0", errorMessage := "invalid_code" } :=
  ⟨⟨rfl, by decide⟩,
    (getOauth_keyed_on_error_field
      { access_token := none, error := some "invalid_code" }
      "invalid_code" rfl (by decide)).1⟩

/-! ## C9 — façades mutate the caller's config (corrected) -/

/-- C9 counterexample: `OrgAPI.createWorkspace` executes
`config.workspaceName = workspaceName` on the caller's object and
`ViewAPI.rename` executes `config.viewName = viewName`: the caller's map
observably gains (or overwrites) a key, refuting "adds no keys and changes
no values observably to the caller". -/
theorem createWorkspace_mutates_caller_config :
    createWorkspaceConfig "W1" [] ≠ []
    ∧ createWorkspaceConfig "W1" [] = [("workspaceName", "W1")]
    ∧ renameViewConfig "V1" [("x", "1")] = [("x", "1"), ("viewName", "V1")] := by
  refine ⟨?_, rfl, rfl⟩
  decide

/-- `obj[k] = v` then reading `k` yields `v`. -/
theorem lookupKey_setKey_self (l : List (String × String)) (k v : String) :
    lookupKey (setKey l k v) k = some v := by
  induction l with
  | nil => simp [setKey, lookupKey]
  | cons kv rest ih =>
    obtain ⟨k1, v1⟩ := kv
    by_cases h : (k1 == k) = true
    · simp [setKey, lookupKey, h]
    · simp [setKey, lookupKey, h, ih]

/-- `obj[k] = v` leaves every other key's value unchanged. -/
theorem lookupKey_setKey_other (l : List (String × String)) (k v k2 : String)
    (h : k2 ≠ k) : lookupKey (setKey l k v) k2 = lookupKey l k2 := by
  have hkk : (k == k2) = false := by
    simp [beq_eq_false_iff_ne]
    exact fun hh => h hh.symm
  induction l with
  | nil => simp [setKey, lookupKey, hkk]
  | cons kv rest ih =>
    obtain ⟨k1, v1⟩ := kv
    by_cases h1 : (k1 == k) = true
    · have hk1 : k1 = k := by simpa [beq_iff_eq] using h1
      subst hk1
      simp [setKey, lookupKey, hkk]
    · simp [setKey, lookupKey, h1, ih]

/-- C9 amended: each façade method shapes the request by writing its
primary argument into the caller-supplied config object itself
(`createWorkspace` sets `config.workspaceName`, `rename` sets
`config.viewName`): the caller's map observably gains or overwrites
exactly that key, while every other key keeps its value. -/
theorem facade_config_shaping (name : String) (cfg : List (String × String))
    (k : String) (hk1 : k ≠ "workspaceName") (hk2 : k ≠ "viewName") :
    lookupKey (createWorkspaceConfig name cfg) "workspaceName" = some name
    ∧ lookupKey (createWorkspaceConfig name cfg) k = lookupKey cfg k
    ∧ lookupKey (renameViewConfig name cfg) "viewName" = some name
    ∧ lookupKey (renameViewConfig name cfg) k = lookupKey cfg k :=
  ⟨lookupKey_setKey_self cfg "workspaceName" name,
   lookupKey_setKey_other cfg "workspaceName" name k hk1,
   lookupKey_setKey_self cfg "viewName" name,
   lookupKey_setKey_other cfg "viewName" name k hk2⟩

/-- Witness for the amended C9 on a config already holding `colorName`. -/
theorem facade_config_shaping_witness :
    (("colorName" : String) ≠ "workspaceName"
      ∧ ("colorName" : String) ≠ "viewName")
    ∧ lookupKey (createWorkspaceConfig "W2" [("colorName", "blue")])
        "workspaceName" = some "W2"
    ∧ lookupKey (createWorkspaceConfig "W2" [("colorName", "blue")])
        "colorName" = some "blue" :=
  have h := facade_config_shaping "W2" [("colorName", "blue")] "colorName"
    (by decide) (by decide)
  ⟨⟨by decide, by decide⟩, h.1, by rw [h.2.1]; rfl⟩

/-! ## C7 — batch-import chunking -/

/-- The batch loop performs exactly `remaining` iterations. -/
theorem batchLoop_length (hdr : String) (lines : List String) (B : Nat)
    (resp : Nat → String) (count : Nat) :
    ∀ (remaining i : Nat) (key : String),
      (batchLoop hdr lines B resp count remaining i key).length = remaining := by
  intro remaining
  induction remaining with
  | zero => intro i key; rfl
  | succ n ih =>
    intro i key
    simp [batchLoop, ih]

/-- Closed form of the `j`-th chunk request produced by the batch loop
started at index `i` with current cursor `key`. -/
theorem batchLoop_getElem (hdr : String) (lines : List String) (B : Nat)
    (resp : Nat → String) (count : Nat) :
    ∀ (remaining j i : Nat) (key : String), j < remaining →
      (batchLoop hdr lines B resp count remaining i key)[j]?
        = some { content := hdr :: ((lines.drop (B * (i + j))).take B),
                 isLastBatch := if i + j = count - 1 then "true" else "false",
                 batchKey := if j = 0 then key else resp (i + j - 1) } := by
  intro remaining
  induction remaining with
  | zero => intro j i key h; omega
  | succ n ih =>
    intro j i key h
    cases j with
    | zero => simp [batchLoop]
    | succ j2 =>
      have h2 : j2 < n := by omega
      simp only [batchLoop, List.getElem?_cons_succ]
      rw [ih j2 (i + 1) (resp i) h2]
      have e1 : i + 1 + j2 = i + (j2 + 1) := by omega
      rw [e1]
      cases j2 with
      | zero => simp
      | succ m =>
        have e2 : i + (m + 1 + 1) - 1 = i + (m + 1 + 1 - 1) := by omega
        simp [e2]

/-- C7: a batch import over `N` data lines (header removed) with batch size
`B ≥ 1`, `N ≥ 1`, sends exactly `⌈N/B⌉` chunk requests; chunk `j` consists
of the header line followed by the `j`-th slice of `B` consecutive data
lines (fewer on the last), carries `isLastBatch="true"` exactly on the
final chunk, and carries `batchKey "start"` on the first chunk and the
`batchKey` returned by the response to chunk `j-1` on every later chunk. -/
theorem batch_import_chunking (hdr : String) (lines : List String) (B : Nat)
    (resp : Nat → String) (hB : 1 ≤ B) (hN : 1 ≤ lines.length) :
    (handleBatchImportModel hdr lines B resp).length = ceilDiv lines.length B
    ∧ (∀ j, j < ceilDiv lines.length B →
        (handleBatchImportModel hdr lines B resp)[j]?
          = some { content := hdr :: ((lines.drop (B * j)).take B),
                   isLastBatch :=
                     if j = ceilDiv lines.length B - 1 then "true" else "false",
                   batchKey := if j = 0 then "start" else resp (j - 1) }) := by
  constructor
  · exact batchLoop_length hdr lines B resp (ceilDiv lines.length B)
      (ceilDiv lines.length B) 0 "start"
  · intro j hj
    have h := batchLoop_getElem hdr lines B resp (ceilDiv lines.length B)
      (ceilDiv lines.length B) j 0 "start" hj
    simpa using h

/-- Witness for C7: three data lines, batch size two — two chunks, the
second flagged last and carrying the first response's cursor. -/
theorem batch_import_chunking_witness :
    (1 ≤ 2 ∧ 1 ≤ (["a", "b", "c"] : List String).length)
    ∧ (handleBatchImportModel "h" ["a", "b", "c"] 2 (fun i => toString i)).length
      = ceilDiv (["a", "b", "c"] : List String).length 2
    ∧ (handleBatchImportModel "h" ["a", "b", "c"] 2 (fun i => toString i))[1]?
      = some { content := ["h", "c"], isLastBatch := "true", batchKey := "0" } :=
  have h := batch_import_chunking "h" ["a", "b", "c"] 2 (fun i => toString i)
    (by decide) (by decide)
  ⟨⟨by decide, by decide⟩, h.1, by rw [h.2 1 (by decide)]; decide⟩

/-! ## C5 — round-trip of the `CONFIG` serialization

Layered: (1) `pctTokenize` inverts the per-byte percent-encoding;
(2) `utf8Detok` inverts the per-character UTF-8 encoding; (3) the JSON
string-body parser inverts `JSON.stringify`'s escaping; (4) the JSON value
parser inverts the value printer on every `JVal` (strings, integers,
booleans, null, arrays, nested objects); assembled into
`config_roundtrip`. -/

/-- An uppercase hex digit evaluates back to its value. -/
theorem hexVal_hexDigitUpper (n : Nat) (h : n < 16) :
    hexVal (hexDigitUpper n) = some n := by
  have hd : ∀ m, m < 16 → hexVal (hexDigitUpper m) = some m := by decide
  exact hd n h

/-- A lowercase hex digit evaluates back to its value. -/
theorem hexVal_hexDigitLower (n : Nat) (h : n < 16) :
    hexVal (hexDigitLower n) = some n := by
  have hd : ∀ m, m < 16 → hexVal (hexDigitLower m) = some m := by decide
  exact hd n h

/-- Tokenizing a percent-encoded byte prepends that byte. -/
theorem pctTokenize_pctEncodeByte (b : Nat) (hb : b < 256) (r : List Char) :
    pctTokenize (pctEncodeByte b ++ r)
      = (pctTokenize r).map (fun ts => Sum.inr b :: ts) := by
  have h1 : b / 16 < 16 := by omega
  have h2 : b % 16 < 16 := by omega
  have e3 : 16 * (b / 16) + b % 16 = b := by omega
  simp [pctEncodeByte, pctTokenize, hexVal_hexDigitUpper _ h1,
    hexVal_hexDigitUpper _ h2, e3]

/-- Every byte of a UTF-8 encoding is a byte. -/
theorem utf8Encode_lt_256 (n : Nat) (hn : n < 0x110000) :
    ∀ b ∈ utf8Encode n, b < 256 := by
  intro b hb
  by_cases h1 : n < 0x80
  · simp [utf8Encode, h1] at hb
    omega
  · by_cases h2 : n < 0x800
    · simp [utf8Encode, h1, h2] at hb
      rcases hb with h | h <;> omega
    · by_cases h3 : n < 0x10000
      · simp [utf8Encode, h1, h2, h3] at hb
        rcases hb with h | h | h <;> omega
      · simp [utf8Encode, h1, h2, h3] at hb
        rcases hb with h | h | h | h <;> omega

/-- Tokenizing a run of percent-encoded bytes prepends those bytes. -/
theorem pctTokenize_bytes (bs : List Nat) (hbs : ∀ b ∈ bs, b < 256)
    (r : List Char) :
    pctTokenize ((bs.map pctEncodeByte).flatten ++ r)
      = (pctTokenize r).map (fun ts => bs.map Sum.inr ++ ts) := by
  induction bs with
  | nil =>
    cases hr : pctTokenize r <;> simp [hr]
  | cons b rest ih =>
    have hb : b < 256 := hbs b (by simp)
    have hrest : ∀ x ∈ rest, x < 256 := fun x hx => hbs x (by simp [hx])
    simp only [List.map_cons, List.flatten_cons, List.append_assoc]
    rw [pctTokenize_pctEncodeByte b hb, ih hrest]
    cases hr : pctTokenize r <;> simp [hr]

/-- Tokenizing one encoded character prepends its token contribution. -/
theorem pctTokenize_encChar (c : Char) (r : List Char) :
    pctTokenize (encodeURIComponentChar c ++ r)
      = (pctTokenize r).map (fun ts => uriCharTokens c ++ ts) := by
  by_cases hu : isUriUnreserved c = true
  · have hpc : (c == '%') = false := by
      rcases Decidable.em (c = '%') with h | h
      · subst h
        exact absurd hu (by decide)
      · simp [h]
    rw [show encodeURIComponentChar c ++ r = c :: r from by
      simp [encodeURIComponentChar, hu]]
    rw [pctTokenize.eq_def]
    simp only [hpc, Bool.false_eq_true, if_false, uriCharTokens, hu, if_true]
    cases hr : pctTokenize r <;> simp [hr]
  · have hvc : c.toNat < 0x110000 := by
      have hv : c.toNat < 0xd800 ∨ (0xdfff < c.toNat ∧ c.toNat < 0x110000) :=
        c.valid
      rcases hv with h | h <;> omega
    simp only [encodeURIComponentChar, uriCharTokens, hu, Bool.false_eq_true,
      if_false]
    exact pctTokenize_bytes (utf8Encode c.toNat)
      (utf8Encode_lt_256 c.toNat hvc) r

/-- Tokenizing a whole encoded string yields its token contributions. -/
theorem pctTokenize_encodeURIComponentL (s : List Char) :
    pctTokenize (encodeURIComponentL s)
      = some ((s.map uriCharTokens).flatten) := by
  have key : ∀ (s : List Char) (r : List Char),
      pctTokenize ((s.map encodeURIComponentChar).flatten ++ r)
        = (pctTokenize r).map
            (fun ts => (s.map uriCharTokens).flatten ++ ts) := by
    intro s
    induction s with
    | nil =>
      intro r
      cases hr : pctTokenize r <;> simp [hr]
    | cons c rest ih =>
      intro r
      simp only [List.map_cons, List.flatten_cons, List.append_assoc]
      rw [pctTokenize_encChar c, ih r]
      cases hr : pctTokenize r <;> simp [hr]
  have h := key s []
  simp only [List.append_nil] at h
  simpa [encodeURIComponentL, pctTokenize] using h

/-- Decoding the UTF-8 byte tokens of one character prepends it. -/
theorem utf8Detok_encode (c : Char) (ts : List (Sum Char Nat)) :
    utf8Detok ((utf8Encode c.toNat).map Sum.inr ++ ts)
      = (utf8Detok ts).map (fun l => c :: l) := by
  have hva : Nat.isValidChar c.toNat := c.valid
  have hvr : c.toNat < 0xd800 ∨ (0xdfff < c.toNat ∧ c.toNat < 0x110000) := c.valid
  by_cases h1 : c.toNat < 0x80
  · rw [show utf8Encode c.toNat = [c.toNat] from by rw [utf8Encode, if_pos h1]]
    rw [List.map_cons, List.map_nil, List.cons_append, List.nil_append]
    rw [utf8Detok]
    simp [h1, Char.ofNat_toNat]
  · by_cases h2 : c.toNat < 0x800
    · rw [show utf8Encode c.toNat = [0xC0 + c.toNat / 0x40, 0x80 + c.toNat % 0x40]
        from by rw [utf8Encode, if_neg h1, if_pos h2]]
      rw [List.map_cons, List.map_cons, List.map_nil, List.cons_append,
        List.cons_append, List.nil_append]
      rw [utf8Detok]
      have hc1 : ¬ (0xC0 + c.toNat / 0x40 < 0x80) := by omega
      have hc2 : ¬ (0xC0 + c.toNat / 0x40 < 0xC0) := by omega
      have hc3 : (0xC0 + c.toNat / 0x40 < 0xF8) := by omega
      have hc4 : (0xC0 + c.toNat / 0x40 < 0xE0) := by omega
      have hb1 : (0x80 ≤ 0x80 + c.toNat % 0x40 ∧ 0x80 + c.toNat % 0x40 < 0xC0) :=
        ⟨by omega, by omega⟩
      simp only [hc1, hc2, hc3, if_false, if_true]
      split
      · next n ts2 heq =>
        simp [hc4, utf8Cont, hb1] at heq
        obtain ⟨hn, hts⟩ := heq
        have hn2 : n = c.toNat := by omega
        subst hn2
        subst hts
        simp [hva, Char.ofNat_toNat]
      · next heq =>
        simp [hc4, utf8Cont, hb1] at heq
    · by_cases h3 : c.toNat < 0x10000
      · rw [show utf8Encode c.toNat = [0xE0 + c.toNat / 0x1000,
            0x80 + (c.toNat / 0x40) % 0x40, 0x80 + c.toNat % 0x40]
          from by rw [utf8Encode, if_neg h1, if_neg h2, if_pos h3]]
        rw [List.map_cons, List.map_cons, List.map_cons, List.map_nil,
          List.cons_append, List.cons_append, List.cons_append, List.nil_append]
        rw [utf8Detok]
        have hc1 : ¬ (0xE0 + c.toNat / 0x1000 < 0x80) := by omega
        have hc2 : ¬ (0xE0 + c.toNat / 0x1000 < 0xC0) := by omega
        have hc3 : (0xE0 + c.toNat / 0x1000 < 0xF8) := by omega
        have hc4 : ¬ (0xE0 + c.toNat / 0x1000 < 0xE0) := by omega
        have hc5 : (0xE0 + c.toNat / 0x1000 < 0xF0) := by omega
        have hb1 : (0x80 ≤ 0x80 + (c.toNat / 0x40) % 0x40
            ∧ 0x80 + (c.toNat / 0x40) % 0x40 < 0xC0) := ⟨by omega, by omega⟩
        have hb2 : (0x80 ≤ 0x80 + c.toNat % 0x40
            ∧ 0x80 + c.toNat % 0x40 < 0xC0) := ⟨by omega, by omega⟩
        simp only [hc1, hc2, hc3, if_false, if_true]
        split
        · next n ts2 heq =>
          simp [hc4, hc5, utf8Cont, hb1, hb2] at heq
          obtain ⟨hn, hts⟩ := heq
          have hn2 : n = c.toNat := by omega
          subst hn2
          subst hts
          simp [hva, Char.ofNat_toNat]
        · next heq =>
          simp [hc4, hc5, utf8Cont, hb1, hb2] at heq
      · have h4 : c.toNat < 0x110000 := by rcases hvr with h | h <;> omega
        rw [show utf8Encode c.toNat = [0xF0 + c.toNat / 0x40000,
            0x80 + (c.toNat / 0x1000) % 0x40, 0x80 + (c.toNat / 0x40) % 0x40,
            0x80 + c.toNat % 0x40]
          from by rw [utf8Encode, if_neg h1, if_neg h2, if_neg h3]]
        rw [List.map_cons, List.map_cons, List.map_cons, List.map_cons,
          List.map_nil, List.cons_append, List.cons_append, List.cons_append,
          List.cons_append, List.nil_append]
        rw [utf8Detok]
        have hc1 : ¬ (0xF0 + c.toNat / 0x40000 < 0x80) := by omega
        have hc2 : ¬ (0xF0 + c.toNat / 0x40000 < 0xC0) := by omega
        have hc3 : (0xF0 + c.toNat / 0x40000 < 0xF8) := by omega
        have hc4 : ¬ (0xF0 + c.toNat / 0x40000 < 0xE0) := by omega
        have hc5 : ¬ (0xF0 + c.toNat / 0x40000 < 0xF0) := by omega
        have hb1 : (0x80 ≤ 0x80 + (c.toNat / 0x1000) % 0x40
            ∧ 0x80 + (c.toNat / 0x1000) % 0x40 < 0xC0) := ⟨by omega, by omega⟩
        have hb2 : (0x80 ≤ 0x80 + (c.toNat / 0x40) % 0x40
            ∧ 0x80 + (c.toNat / 0x40) % 0x40 < 0xC0) := ⟨by omega, by omega⟩
        have hb3 : (0x80 ≤ 0x80 + c.toNat % 0x40
            ∧ 0x80 + c.toNat % 0x40 < 0xC0) := ⟨by omega, by omega⟩
        simp only [hc1, hc2, hc3, if_false, if_true]
        split
        · next n ts2 heq =>
          simp [hc4, hc5, utf8Cont, hb1, hb2, hb3] at heq
          obtain ⟨hn, hts⟩ := heq
          have hn2 : n = c.toNat := by omega
          subst hn2
          subst hts
          simp [hva, Char.ofNat_toNat]
        · next heq =>
          simp [hc4, hc5, utf8Cont, hb1, hb2, hb3] at heq

/-- Decoding one character's token contribution prepends that character. -/
theorem utf8Detok_uriCharTokens (c : Char) (ts : List (Sum Char Nat)) :
    utf8Detok (uriCharTokens c ++ ts) = (utf8Detok ts).map (fun l => c :: l) := by
  by_cases hu : isUriUnreserved c = true
  · rw [show uriCharTokens c = [Sum.inl c] from by simp [uriCharTokens, hu]]
    rw [List.cons_append, List.nil_append, utf8Detok]
  · rw [show uriCharTokens c = (utf8Encode c.toNat).map Sum.inr from by
      simp [uriCharTokens, hu]]
    exact utf8Detok_encode c ts

/-- Decoding the token contributions of a whole string yields it. -/
theorem utf8Detok_uriTokens_flatten (s : List Char) :
    utf8Detok ((s.map uriCharTokens).flatten) = some s := by
  have key : ∀ (s : List Char) (ts : List (Sum Char Nat)),
      utf8Detok ((s.map uriCharTokens).flatten ++ ts)
        = (utf8Detok ts).map (fun l => s ++ l) := by
    intro s
    induction s with
    | nil =>
      intro ts
      cases ht : utf8Detok ts <;> simp [ht]
    | cons c rest ih =>
      intro ts
      simp only [List.map_cons, List.flatten_cons, List.append_assoc]
      rw [utf8Detok_uriCharTokens c, ih ts]
      cases ht : utf8Detok ts <;> simp [ht]
  have h := key s []
  rw [List.append_nil] at h
  rw [h, utf8Detok]
  simp

/-- `decodeURIComponent` inverts `encodeURIComponent`. -/
theorem decodeURIComponentL_encodeURIComponentL (s : List Char) :
    decodeURIComponentL (encodeURIComponentL s) = some s := by
  rw [decodeURIComponentL, pctTokenize_encodeURIComponentL]
  simpa using utf8Detok_uriTokens_flatten s

/-- The string parser consumes a closing quote. -/
theorem jsonParseStringBody_quote (t : List Char) :
    jsonParseStringBody (quoteChar :: t) = some ([], t) := by
  rw [jsonParseStringBody]
  simp

theorem jsonParseStringBody_backslash (t : List Char) :
    jsonParseStringBody (backslashChar :: t)
      = match jsonParseEscape t with
        | some (ch, used) =>
          (jsonParseStringBody (t.drop used)).map (fun p => (ch :: p.1, p.2))
        | none => none := by
  rw [jsonParseStringBody]
  have h1 : (backslashChar == quoteChar) = false := by decide
  simp [h1]

theorem jsonParseStringBody_plain (c : Char) (t : List Char)
    (h1 : (c == quoteChar) = false) (h2 : (c == backslashChar) = false)
    (h3 : ¬ c.toNat < 32) :
    jsonParseStringBody (c :: t)
      = (jsonParseStringBody t).map (fun p => (c :: p.1, p.2)) := by
  rw [jsonParseStringBody]
  simp [h1, h2, h3]

theorem jsonParseEscape_u (t : Nat) (ht : t < 32) (r : List Char) :
    jsonParseEscape ('u' :: '0' :: '0' :: hexDigitLower (t / 16)
        :: hexDigitLower (t % 16) :: r)
      = some (Char.ofNat t, 5) := by
  rw [jsonParseEscape]
  simp +decide only [if_false, if_true]
  rw [jsonParseU]
  simp [hexVal_hexDigitLower _ (by omega : t / 16 < 16),
    hexVal_hexDigitLower _ (by omega : t % 16 < 16),
    show hexVal '0' = some 0 from by decide]
  have e2 : t / 16 * 16 + t % 16 = t := by omega
  rw [e2]
  exact ⟨Or.inl (by omega), rfl⟩

theorem jsonParseStringBody_escapeChar (c : Char) (r : List Char) :
    jsonParseStringBody (jsonEscapeChar c ++ r)
      = (jsonParseStringBody r).map (fun p => (c :: p.1, p.2)) := by
  by_cases h1 : c = quoteChar
  · subst h1
    rw [show jsonEscapeChar quoteChar = [backslashChar, quoteChar] from by decide]
    rw [List.cons_append, List.cons_append, List.nil_append]
    rw [jsonParseStringBody_backslash]
    rw [show jsonParseEscape (quoteChar :: r) = some (quoteChar, 1) from by
      rw [jsonParseEscape]; simp]
    simp
  · by_cases h2 : c = backslashChar
    · subst h2
      rw [show jsonEscapeChar backslashChar = [backslashChar, backslashChar] from by decide]
      rw [List.cons_append, List.cons_append, List.nil_append]
      rw [jsonParseStringBody_backslash]
      rw [show jsonParseEscape (backslashChar :: r) = some (backslashChar, 1) from by
        rw [jsonParseEscape]; simp +decide only [if_false, if_true]]
      simp
    · by_cases h3 : c.toNat = 8
      · have hc : c = Char.ofNat 8 := by rw [← Char.ofNat_toNat c, h3]
        subst hc
        rw [show jsonEscapeChar (Char.ofNat 8) = [backslashChar, 'b'] from by decide]
        rw [List.cons_append, List.cons_append, List.nil_append]
        rw [jsonParseStringBody_backslash]
        rw [show jsonParseEscape ('b' :: r) = some (Char.ofNat 8, 1) from by
          rw [jsonParseEscape]; simp +decide only [if_false, if_true]]
        simp
      · by_cases h4 : c.toNat = 9
        · have hc : c = Char.ofNat 9 := by rw [← Char.ofNat_toNat c, h4]
          subst hc
          rw [show jsonEscapeChar (Char.ofNat 9) = [backslashChar, 't'] from by decide]
          rw [List.cons_append, List.cons_append, List.nil_append]
          rw [jsonParseStringBody_backslash]
          rw [show jsonParseEscape ('t' :: r) = some (Char.ofNat 9, 1) from by
            rw [jsonParseEscape]; simp +decide only [if_false, if_true]]
          simp
        · by_cases h5 : c.toNat = 10
          · have hc : c = Char.ofNat 10 := by rw [← Char.ofNat_toNat c, h5]
            subst hc
            rw [show jsonEscapeChar (Char.ofNat 10) = [backslashChar, 'n'] from by decide]
            rw [List.cons_append, List.cons_append, List.nil_append]
            rw [jsonParseStringBody_backslash]
            rw [show jsonParseEscape ('n' :: r) = some (Char.ofNat 10, 1) from by
              rw [jsonParseEscape]; simp +decide only [if_false, if_true]]
            simp
          · by_cases h6 : c.toNat = 12
            · have hc : c = Char.ofNat 12 := by rw [← Char.ofNat_toNat c, h6]
              subst hc
              rw [show jsonEscapeChar (Char.ofNat 12) = [backslashChar, 'f'] from by decide]
              rw [List.cons_append, List.cons_append, List.nil_append]
              rw [jsonParseStringBody_backslash]
              rw [show jsonParseEscape ('f' :: r) = some (Char.ofNat 12, 1) from by
                rw [jsonParseEscape]; simp +decide only [if_false, if_true]]
              simp
            · by_cases h7 : c.toNat = 13
              · have hc : c = Char.ofNat 13 := by rw [← Char.ofNat_toNat c, h7]
                subst hc
                rw [show jsonEscapeChar (Char.ofNat 13) = [backslashChar, 'r'] from by decide]
                rw [List.cons_append, List.cons_append, List.nil_append]
                rw [jsonParseStringBody_backslash]
                rw [show jsonParseEscape ('r' :: r) = some (Char.ofNat 13, 1) from by
                  rw [jsonParseEscape]; simp +decide only [if_false, if_true]]
                simp
              · by_cases h8 : c.toNat < 32
                · have hesc : jsonEscapeChar c
                      = [backslashChar, 'u', '0', '0',
                          hexDigitLower (c.toNat / 16), hexDigitLower (c.toNat % 16)] := by
                    rw [jsonEscapeChar]
                    simp [beq_iff_eq, h1, h2, h3, h4, h5, h6, h7, h8]
                  rw [hesc]
                  rw [List.cons_append, List.cons_append, List.cons_append,
                    List.cons_append, List.cons_append, List.cons_append,
                    List.nil_append]
                  rw [jsonParseStringBody_backslash]
                  rw [jsonParseEscape_u c.toNat h8 r]
                  simp [Char.ofNat_toNat]
                · have hesc : jsonEscapeChar c = [c] := by
                    rw [jsonEscapeChar]
                    simp [beq_iff_eq, h1, h2, h3, h4, h5, h6, h7, h8]
                  rw [hesc, List.cons_append, List.nil_append]
                  exact jsonParseStringBody_plain c r
                    (by simp [beq_iff_eq, h1]) (by simp [beq_iff_eq, h2]) h8

theorem jsonParseStringBody_escaped (s : List Char) (r : List Char) :
    jsonParseStringBody ((s.map jsonEscapeChar).flatten ++ (quoteChar :: r))
      = some (s, r) := by
  induction s with
  | nil =>
    simp only [List.map_nil, List.flatten_nil, List.nil_append]
    exact jsonParseStringBody_quote r
  | cons c cs ih =>
    simp only [List.map_cons, List.flatten_cons, List.append_assoc]
    rw [jsonParseStringBody_escapeChar, ih]
    rfl
/-- Decimal characters are digit characters. -/
theorem digit_char_facts :
    ∀ d, d < 10 → (Char.ofNat (48 + d)).toNat = 48 + d
      ∧ isDigitCh (Char.ofNat (48 + d)) = true := by
  decide

theorem natChars_digits (n : Nat) :
    ∀ c ∈ natChars n, isDigitCh c = true := by
  induction n using Nat.strong_induction_on with
  | _ n ih =>
    intro c hc
    rw [natChars] at hc
    split at hc
    · next h =>
      simp at hc
      subst hc
      exact (digit_char_facts n h).2
    · next h =>
      simp at hc
      rcases hc with hc | hc
      · exact ih (n / 10) (by omega) c hc
      · subst hc
        exact (digit_char_facts (n % 10) (by omega)).2

theorem natChars_ne_nil (n : Nat) : natChars n ≠ [] := by
  rw [natChars]
  split <;> simp

theorem natChars_head_digit (n : Nat) :
    ∃ c z, natChars n = c :: z ∧ isDigitCh c = true := by
  cases h : natChars n with
  | nil => exact absurd h (natChars_ne_nil n)
  | cons c z =>
    exact ⟨c, z, rfl, natChars_digits n c (by rw [h]; simp)⟩

theorem takeDigits_append (ds : List Char) (r : List Char)
    (hds : ∀ c ∈ ds, isDigitCh c = true)
    (hr : (match r.head? with | none => true | some c => !(isDigitCh c)) = true) :
    takeDigits (ds ++ r) = (ds, r) := by
  induction ds with
  | nil =>
    simp only [List.nil_append]
    cases r with
    | nil => rfl
    | cons c rest =>
      simp at hr
      rw [takeDigits]
      simp [hr]
  | cons c cs ih =>
    have hc : isDigitCh c = true := hds c (by simp)
    rw [List.cons_append, takeDigits]
    simp [hc, ih (fun x hx => hds x (by simp [hx]))]

theorem digitsVal_append (xs ys : List Char) :
    ∀ acc, digitsVal (xs ++ ys) acc = digitsVal ys (digitsVal xs acc) := by
  induction xs with
  | nil => intro acc; simp [digitsVal]
  | cons c cs ih =>
    intro acc
    rw [List.cons_append]
    simp only [digitsVal]
    rw [ih]

/-- Reading back the decimal digits of `n` yields `n`. -/
theorem digitsVal_natChars (n : Nat) :
    ∀ acc, digitsVal (natChars n) acc = acc * 10 ^ (natChars n).length + n := by
  induction n using Nat.strong_induction_on with
  | _ n ih =>
    intro acc
    rw [natChars]
    split
    · next h =>
      simp only [digitsVal]
      simp [(digit_char_facts n h).1]
    · next h =>
      rw [digitsVal_append, ih (n / 10) (by omega)]
      simp only [digitsVal]
      rw [(digit_char_facts (n % 10) (by omega)).1]
      simp only [List.length_append, List.length_cons, List.length_nil]
      rw [pow_succ]
      have e1 : 48 + n % 10 - 48 = n % 10 := by omega
      rw [e1]
      have e2 : n / 10 * 10 + n % 10 = n := by omega
      ring_nf
      omega

/-- The number parser accepts a rendered natural number and stops at the
delimiter. -/
theorem parseNatNum_natChars (n : Nat) (r : List Char)
    (hr : numStop r = true) :
    parseNatNum (natChars n ++ r) = some (n, r) := by
  have hdig := natChars_digits n
  have hrd : (match r.head? with | none => true | some c => !(isDigitCh c)) = true := by
    cases r with
    | nil => rfl
    | cons c rest =>
      simp only [numStop, List.head?] at hr
      simp only [List.head?]
      simp only [Bool.not_eq_true'] at hr ⊢
      simp at hr
      simp [hr.1]
  rw [parseNatNum]
  simp only [takeDigits_append (natChars n) r hdig hrd]
  simp only [List.isEmpty_eq_true]
  rw [if_neg (natChars_ne_nil n), if_pos hr]
  rw [digitsVal_natChars n 0]
  simp

/-- The integer parser accepts a rendered integer, sign included. -/
theorem jvalParseNum_intChars (i : Int) (r : List Char)
    (hr : numStop r = true) :
    jvalParseNum (intChars i ++ r) = some (i, r) := by
  cases i with
  | ofNat n =>
    rw [show intChars (Int.ofNat n) = natChars n from rfl]
    obtain ⟨c, z, hcz, hdc⟩ := natChars_head_digit n
    have hcne : c ≠ '-' := by
      intro hh
      subst hh
      exact absurd hdc (by decide)
    have hnm : ((natChars n ++ r).head? == some '-') = false := by
      rw [hcz, List.cons_append]
      simp [hcne]
    rw [jvalParseNum, if_neg (by rw [hnm]; simp)]
    rw [parseNatNum_natChars n r hr]
    rfl
  | negSucc m =>
    rw [show intChars (Int.negSucc m) = '-' :: natChars (m + 1) from rfl]
    rw [List.cons_append, jvalParseNum]
    rw [if_pos (by simp)]
    simp only [List.tail_cons]
    rw [parseNatNum_natChars (m + 1) r hr]
    simp [Int.negSucc_eq]

theorem dropLit_self (lit : List Char) : ∀ r, dropLit lit (lit ++ r) = some r := by
  induction lit with
  | nil => intro r; rfl
  | cons c cs ih =>
    intro r
    rw [List.cons_append, dropLit]
    simp [ih]

theorem digit_toNat_range (c : Char) (h : isDigitCh c = true) :
    48 ≤ c.toNat ∧ c.toNat ≤ 57 := by
  simp [isDigitCh] at h
  exact h

theorem digit_ne_of_toNat (c d : Char) (h : isDigitCh c = true)
    (hd : ¬ (48 ≤ d.toNat ∧ d.toNat ≤ 57)) : (c == d) = false := by
  apply beq_false_of_ne
  intro hh
  subst hh
  exact hd (digit_toNat_range c h)

theorem jvalStringifyArr_cons (x : JVal) (t : List JVal) :
    jvalStringifyArr (x :: t)
      = jvalStringify x
        ++ (match t with | [] => [] | _ :: _ => ',' :: jvalStringifyArr t) := by
  cases t with
  | nil => simp [jvalStringifyArr]
  | cons y t2 => simp [jvalStringifyArr]

theorem jvalStringifyKVs_cons (k : List Char) (v : JVal)
    (t : List (List Char × JVal)) :
    jvalStringifyKVs ((k, v) :: t)
      = jsonQuote k ++ ':' :: jvalStringify v
        ++ (match t with | [] => [] | _ :: _ => ',' :: jvalStringifyKVs t) := by
  cases t with
  | nil => simp [jvalStringifyKVs]
  | cons kv2 t2 => simp [jvalStringifyKVs]

/-- Every stringified value is nonempty and never starts with a closing
bracket or brace — so element and member lists are parsed unambiguously. -/
theorem jvalStringify_head (v : JVal) :
    ∃ c z, jvalStringify v = c :: z
      ∧ (c == ']') = false ∧ (c == rbraceChar) = false := by
  cases v with
  | str s =>
    exact ⟨quoteChar, (s.map jsonEscapeChar).flatten ++ [quoteChar],
      by simp [jvalStringify, jsonQuote], by decide, by decide⟩
  | num i =>
    cases i with
    | ofNat n =>
      obtain ⟨c, z, hcz, hdc⟩ := natChars_head_digit n
      refine ⟨c, z, by simp [jvalStringify, intChars, hcz], ?_, ?_⟩
      · exact digit_ne_of_toNat c _ hdc (by decide)
      · exact digit_ne_of_toNat c _ hdc (by decide)
    | negSucc m =>
      exact ⟨'-', natChars (m + 1),
        by simp [jvalStringify, intChars], by decide, by decide⟩
  | bool b =>
    cases b with
    | true => exact ⟨'t', ['r', 'u', 'e'], by simp [jvalStringify], by decide, by decide⟩
    | false => exact ⟨'f', ['a', 'l', 's', 'e'], by simp [jvalStringify], by decide, by decide⟩
  | null => exact ⟨'n', ['u', 'l', 'l'], by simp [jvalStringify], by decide, by decide⟩
  | arr xs =>
    exact ⟨'[', jvalStringifyArr xs ++ [']'], by simp [jvalStringify], by decide, by decide⟩
  | obj kvs =>
    exact ⟨lbraceChar, jvalStringifyKVs kvs ++ [rbraceChar],
      by simp [jvalStringify], by decide, by decide⟩

theorem numStop_comma (r : List Char) : numStop (',' :: r) = true := rfl

theorem numStop_rbracket (r : List Char) : numStop (']' :: r) = true := rfl

theorem numStop_rbrace (r : List Char) : numStop (rbraceChar :: r) = true := rfl

mutual
/-- The fuelled JSON parser inverts the printer on any value, for any
sufficient fuel, leaving the delimiter-headed remainder untouched. -/
theorem jvalParse_stringify (v : JVal) (fuel : Nat) (r : List Char)
    (hf : jvalFuel v ≤ fuel) (hr : numStop r = true) :
    jvalParse fuel (jvalStringify v ++ r) = some (v, r) := by
  cases fuel with
  | zero =>
    exfalso
    cases v <;> simp [jvalFuel] at hf
  | succ f =>
    cases v with
    | str s =>
      rw [show jvalStringify (JVal.str s) ++ r
          = quoteChar :: ((s.map jsonEscapeChar).flatten ++ (quoteChar :: r)) from by
        simp [jvalStringify, jsonQuote]]
      rw [jvalParse]
      rw [if_pos (by simp)]
      rw [jsonParseStringBody_escaped]
      rfl
    | num i =>
      cases i with
      | ofNat n =>
        obtain ⟨c, z, hcz, hdc⟩ := natChars_head_digit n
        rw [show jvalStringify (JVal.num (Int.ofNat n)) ++ r = c :: (z ++ r) from by
          simp [jvalStringify, intChars, hcz]]
        rw [jvalParse]
        rw [if_neg (by rw [digit_ne_of_toNat c quoteChar hdc (by decide)]; simp)]
        rw [if_neg (by rw [digit_ne_of_toNat c lbraceChar hdc (by decide)]; simp)]
        rw [if_neg (by rw [digit_ne_of_toNat c '[' hdc (by decide)]; simp)]
        rw [if_neg (by rw [digit_ne_of_toNat c 't' hdc (by decide)]; simp)]
        rw [if_neg (by rw [digit_ne_of_toNat c 'f' hdc (by decide)]; simp)]
        rw [if_neg (by rw [digit_ne_of_toNat c 'n' hdc (by decide)]; simp)]
        rw [show c :: (z ++ r) = intChars (Int.ofNat n) ++ r from by
          simp [intChars, hcz]]
        rw [jvalParseNum_intChars _ r hr]
      | negSucc m =>
        rw [show jvalStringify (JVal.num (Int.negSucc m)) ++ r
            = '-' :: (natChars (m + 1) ++ r) from by
          simp [jvalStringify, intChars]]
        rw [jvalParse]
        rw [if_neg (by decide), if_neg (by decide), if_neg (by decide),
          if_neg (by decide), if_neg (by decide), if_neg (by decide)]
        rw [show '-' :: (natChars (m + 1) ++ r) = intChars (Int.negSucc m) ++ r from by
          simp [intChars]]
        rw [jvalParseNum_intChars _ r hr]
    | bool b =>
      cases b with
      | true =>
        rw [show jvalStringify (JVal.bool true) ++ r = 't' :: (['r', 'u', 'e'] ++ r) from by
          simp [jvalStringify]]
        rw [jvalParse]
        rw [if_neg (by decide), if_neg (by decide), if_neg (by decide),
          if_pos (by decide)]
        rw [dropLit_self]
        rfl
      | false =>
        rw [show jvalStringify (JVal.bool false) ++ r
            = 'f' :: (['a', 'l', 's', 'e'] ++ r) from by
          simp [jvalStringify]]
        rw [jvalParse]
        rw [if_neg (by decide), if_neg (by decide), if_neg (by decide),
          if_neg (by decide), if_pos (by decide)]
        rw [dropLit_self]
        rfl
    | null =>
      rw [show jvalStringify JVal.null ++ r = 'n' :: (['u', 'l', 'l'] ++ r) from by
        simp [jvalStringify]]
      rw [jvalParse]
      rw [if_neg (by decide), if_neg (by decide), if_neg (by decide),
        if_neg (by decide), if_neg (by decide), if_pos (by decide)]
      rw [dropLit_self]
      rfl
    | arr xs =>
      cases xs with
      | nil =>
        rw [show jvalStringify (JVal.arr []) ++ r = '[' :: (']' :: r) from by
          simp [jvalStringify, jvalStringifyArr]]
        rw [jvalParse]
        rw [if_neg (by decide), if_neg (by decide), if_pos (by decide)]
        rw [if_pos (by simp)]
        rfl
      | cons x t =>
        rw [show jvalStringify (JVal.arr (x :: t)) ++ r
            = '[' :: (jvalStringifyArr (x :: t) ++ (']' :: r)) from by
          simp [jvalStringify]]
        rw [jvalParse]
        rw [if_neg (by decide), if_neg (by decide), if_pos (by decide)]
        obtain ⟨c, z, hcz, hne1, hne2⟩ := jvalStringify_head x
        rw [if_neg (by
          rw [jvalStringifyArr_cons, hcz]
          cases t <;> simp [hne1])]
        rw [jvalParseItems_stringify (x :: t) (by simp) f r
          (by simp only [jvalFuel] at hf; omega)]
        rfl
    | obj kvs =>
      cases kvs with
      | nil =>
        rw [show jvalStringify (JVal.obj []) ++ r = lbraceChar :: (rbraceChar :: r) from by
          simp [jvalStringify, jvalStringifyKVs]]
        rw [jvalParse]
        rw [if_neg (by decide), if_pos (by decide)]
        rw [if_pos (by simp)]
        rfl
      | cons kv t =>
        obtain ⟨k, v0⟩ := kv
        rw [show jvalStringify (JVal.obj ((k, v0) :: t)) ++ r
            = lbraceChar :: (jvalStringifyKVs ((k, v0) :: t) ++ (rbraceChar :: r)) from by
          simp [jvalStringify]]
        rw [jvalParse]
        rw [if_neg (by decide), if_pos (by decide)]
        rw [if_neg (by
          rw [jvalStringifyKVs_cons]
          simp only [jsonQuote]
          cases t <;> simp +decide)]
        rw [jvalParseKVs_stringify ((k, v0) :: t) (by simp) f r
          (by simp only [jvalFuel] at hf; omega)]
        rfl

/-- The element-list parser inverts the element-list printer on nonempty
lists, up to the closing bracket. -/
theorem jvalParseItems_stringify (xs : List JVal) (hne : xs ≠ []) (fuel : Nat)
    (r : List Char) (hf : jvalListFuel xs ≤ fuel) :
    jvalParseItems fuel (jvalStringifyArr xs ++ (']' :: r)) = some (xs, r) := by
  cases xs with
  | nil => exact absurd rfl hne
  | cons x t =>
    cases fuel with
    | zero =>
      exfalso
      simp [jvalListFuel] at hf
    | succ f =>
      have hfx : jvalFuel x ≤ f := by
        simp only [jvalListFuel] at hf
        omega
      cases t with
      | nil =>
        rw [show jvalStringifyArr [x] ++ (']' :: r) = jvalStringify x ++ (']' :: r) from by
          simp [jvalStringifyArr]]
        rw [jvalParseItems]
        rw [jvalParse_stringify x f (']' :: r) hfx (numStop_rbracket r)]
        rfl
      | cons y t2 =>
        rw [show jvalStringifyArr (x :: y :: t2) ++ (']' :: r)
            = jvalStringify x ++ (',' :: (jvalStringifyArr (y :: t2) ++ (']' :: r))) from by
          simp [jvalStringifyArr]]
        rw [jvalParseItems]
        rw [jvalParse_stringify x f _ hfx (numStop_comma _)]
        show (jvalParseItems f (jvalStringifyArr (y :: t2) ++ (']' :: r))).map
            (fun p => (x :: p.1, p.2)) = some (x :: y :: t2, r)
        rw [jvalParseItems_stringify (y :: t2) (by simp) f r
          (by simp only [jvalListFuel] at hf ⊢; omega)]
        rfl

/-- The member-list parser inverts the member-list printer on nonempty
lists, up to the closing brace. -/
theorem jvalParseKVs_stringify (kvs : List (List Char × JVal)) (hne : kvs ≠ [])
    (fuel : Nat) (r : List Char) (hf : jvalKVFuel kvs ≤ fuel) :
    jvalParseKVs fuel (jvalStringifyKVs kvs ++ (rbraceChar :: r)) = some (kvs, r) := by
  cases kvs with
  | nil => exact absurd rfl hne
  | cons kv t =>
    obtain ⟨k, v⟩ := kv
    cases fuel with
    | zero =>
      exfalso
      simp [jvalKVFuel] at hf
    | succ f =>
      have hfv : jvalFuel v ≤ f := by
        simp only [jvalKVFuel] at hf
        omega
      cases t with
      | nil =>
        rw [show jvalStringifyKVs [(k, v)] ++ (rbraceChar :: r)
            = quoteChar :: ((k.map jsonEscapeChar).flatten
              ++ (quoteChar :: ':' :: (jvalStringify v ++ (rbraceChar :: r)))) from by
          simp [jvalStringifyKVs, jsonQuote]]
        rw [jvalParseKVs]
        rw [if_pos (by simp)]
        rw [jsonParseStringBody_escaped]
        show (match jvalParse f (jvalStringify v ++ (rbraceChar :: r)) with
          | none => none
          | some (v2, r3) =>
            match r3 with
            | [] => none
            | d :: r4 =>
              if d == ',' then
                (jvalParseKVs f r4).map (fun p => ((k, v2) :: p.1, p.2))
              else if d == rbraceChar then some ([(k, v2)], r4)
              else none) = some ([(k, v)], r)
        rw [jvalParse_stringify v f _ hfv (numStop_rbrace r)]
        rfl
      | cons kv2 t2 =>
        rw [show jvalStringifyKVs ((k, v) :: kv2 :: t2) ++ (rbraceChar :: r)
            = quoteChar :: ((k.map jsonEscapeChar).flatten
              ++ (quoteChar :: ':' :: (jvalStringify v
                ++ (',' :: (jvalStringifyKVs (kv2 :: t2) ++ (rbraceChar :: r)))))) from by
          simp [jvalStringifyKVs, jsonQuote]]
        rw [jvalParseKVs]
        rw [if_pos (by simp)]
        rw [jsonParseStringBody_escaped]
        show (match jvalParse f (jvalStringify v
            ++ (',' :: (jvalStringifyKVs (kv2 :: t2) ++ (rbraceChar :: r)))) with
          | none => none
          | some (v2, r3) =>
            match r3 with
            | [] => none
            | d :: r4 =>
              if d == ',' then
                (jvalParseKVs f r4).map (fun p => ((k, v2) :: p.1, p.2))
              else if d == rbraceChar then some ([(k, v2)], r4)
              else none) = some ((k, v) :: kv2 :: t2, r)
        rw [jvalParse_stringify v f _ hfv (numStop_comma _)]
        show (jvalParseKVs f (jvalStringifyKVs (kv2 :: t2) ++ (rbraceChar :: r))).map
            (fun p => ((k, v) :: p.1, p.2)) = some ((k, v) :: kv2 :: t2, r)
        rw [jvalParseKVs_stringify (kv2 :: t2) (by simp) f r
          (by simp only [jvalKVFuel] at hf ⊢; omega)]
        rfl
end

mutual
/-- The printed length is always enough fuel for the parser. -/
theorem jvalFuel_le (v : JVal) : jvalFuel v ≤ (jvalStringify v).length := by
  cases v with
  | str s => simp [jvalFuel, jvalStringify, jsonQuote]
  | num i =>
    have h : intChars i ≠ [] := by
      cases i with
      | ofNat n => exact natChars_ne_nil n
      | negSucc m => simp [intChars]
    simp only [jvalFuel, jvalStringify]
    cases hi : intChars i with
    | nil => exact absurd hi h
    | cons c z => simp
  | bool b => cases b <;> simp [jvalFuel, jvalStringify]
  | null => simp [jvalFuel, jvalStringify]
  | arr xs =>
    cases xs with
    | nil => simp [jvalFuel, jvalListFuel, jvalStringify, jvalStringifyArr]
    | cons x t =>
      have h := jvalListFuel_le (x :: t)
      simp only [jvalFuel, jvalStringify, List.length_cons, List.length_append,
        List.length_cons, List.length_nil] at h ⊢
      omega
  | obj kvs =>
    cases kvs with
    | nil => simp [jvalFuel, jvalKVFuel, jvalStringify, jvalStringifyKVs]
    | cons kv t =>
      have h := jvalKVFuel_le (kv :: t)
      simp only [jvalFuel, jvalStringify, List.length_cons, List.length_append,
        List.length_nil] at h ⊢
      omega

theorem jvalListFuel_le (xs : List JVal) :
    jvalListFuel xs ≤ (jvalStringifyArr xs).length + 1 := by
  cases xs with
  | nil => simp [jvalListFuel]
  | cons x t =>
    have hx := jvalFuel_le x
    cases t with
    | nil =>
      simp only [jvalListFuel, jvalListFuel, jvalStringifyArr]
      omega
    | cons y t2 =>
      have ht := jvalListFuel_le (y :: t2)
      simp only [jvalListFuel, jvalStringifyArr, List.length_append,
        List.length_cons] at ht ⊢
      omega

theorem jvalKVFuel_le (kvs : List (List Char × JVal)) :
    jvalKVFuel kvs ≤ (jvalStringifyKVs kvs).length + 1 := by
  cases kvs with
  | nil => simp [jvalKVFuel]
  | cons kv t =>
    obtain ⟨k, v⟩ := kv
    have hv := jvalFuel_le v
    cases t with
    | nil =>
      simp only [jvalKVFuel, jvalKVFuel, jvalStringifyKVs, List.length_append,
        List.length_cons]
      omega
    | cons kv2 t2 =>
      have ht := jvalKVFuel_le (kv2 :: t2)
      simp only [jvalKVFuel, jvalStringifyKVs, List.length_append,
        List.length_cons] at ht ⊢
      omega
end

/-- `JSON.parse` inverts `JSON.stringify` on every JSON value in the
model: strings, integers, booleans, null, arrays and nested objects. -/
theorem jvalParseTop_stringify (v : JVal) :
    jvalParseTop (jvalStringify v) = some v := by
  rw [jvalParseTop]
  have h1 : jvalFuel v ≤ (jvalStringify v).length + 1 :=
    le_trans (jvalFuel_le v) (by omega)
  have h2 := jvalParse_stringify v ((jvalStringify v).length + 1) [] h1 rfl
  rw [List.append_nil] at h2
  rw [h2]
  rfl

/-- C5: `decodeURIComponent` then `JSON.parse` recovers any config map —
with string, integer, boolean, null, array or nested-object values — from
the `encodeURIComponent(JSON.stringify(config))` serialization that
`sendV2Request` sends, preserving key order, every value and all nested
structure; and the parameter is appended as `path ++ "?CONFIG=" ++ encoded`
exactly when the config is non-null and non-empty. -/
theorem config_roundtrip (cfg : List (List Char × JVal)) :
    decodeConfigParam (encodeConfigParam cfg) = some (JVal.obj cfg)
    ∧ (∀ path : List Char, cfg ≠ [] →
        appendConfigParam path (some cfg)
          = path ++ '?' :: ('C' :: 'O' :: 'N' :: 'F' :: 'I' :: 'G' :: '='
            :: encodeConfigParam cfg))
    ∧ appendConfigParam "/restapi/v2/workspaces".data none
        = "/restapi/v2/workspaces".data := by
  refine ⟨?_, ?_, rfl⟩
  · rw [encodeConfigParam, decodeConfigParam,
      decodeURIComponentL_encodeURIComponentL]
    simp [jvalParseTop_stringify]
  · intro path hne
    rw [appendConfigParam]
    rw [if_pos]
    simpa using hne

/-- Witness for C5 at a config mixing boolean, array, integer and
nested-object values. -/
theorem config_roundtrip_witness :
    sampleConfig ≠ []
    ∧ decodeConfigParam (encodeConfigParam sampleConfig)
      = some (JVal.obj sampleConfig)
    ∧ appendConfigParam "/x".data (some sampleConfig)
      = "/x".data ++ '?' :: ('C' :: 'O' :: 'N' :: 'F' :: 'I' :: 'G' :: '='
        :: encodeConfigParam sampleConfig) :=
  have h := config_roundtrip sampleConfig
  ⟨List.cons_ne_nil _ _, h.1, h.2.1 ("/x").data (List.cons_ne_nil _ _)⟩
